import Mathlib

/-!
Verification development for the ZeroBuild generation → repair → publish
pipeline.  The definitions below are shallow embeddings of the TypeScript
source (src/lib/github-service.ts and the ai-service module): pure string
functions are translated to functions on `List Char` / `String`; the
network-facing operations (GitHub publish calls, AI providers) are modelled
as deterministic functions of an explicit environment/outcome oracle that
also produce the trace of remote calls they issue.  JavaScript strings are
modelled as lists of characters (inputs of interest are ASCII, so the
UTF-16 length and Unicode `\s`/`toLowerCase` differences do not arise);
line terminators are modelled as the newline character.
-/

namespace ZeroBuild

/-! ## Basic character classes and list utilities (JS regex building blocks) -/

/-- JavaScript `\s` on the ASCII range (space, tab, newline, CR, VT, FF). -/
def jsWs (c : Char) : Bool :=
  c = ' ' || c = '\t' || c = '\n' || c = '\r' || c = Char.ofNat 11 || c = Char.ofNat 12

/-- JS regex `\d`. -/
def isDigitCh (c : Char) : Bool :=
  48 ≤ c.toNat && c.toNat ≤ 57

/-- JS regex `[a-zA-Z]`. -/
def isAlphaCh (c : Char) : Bool :=
  (97 ≤ c.toNat && c.toNat ≤ 122) || (65 ≤ c.toNat && c.toNat ≤ 90)

/-- JS regex `\w` (word character): letters, digits, underscore. -/
def isWordCh (c : Char) : Bool :=
  isAlphaCh c || isDigitCh c || c = '_'

/-- Definition: `leadsWith pat l`: `pat` is a prefix of `l` (JS `String.startsWith`). -/
def leadsWith : List Char → List Char → Bool
  | [], _ => true
  | _ :: _, [] => false
  | p :: ps, x :: xs => p = x && leadsWith ps xs

/-- Definition: `containsSub pat l`: `pat` occurs as a contiguous substring of `l`
(JS `String.includes`). -/
def containsSub (pat : List Char) : List Char → Bool
  | [] => leadsWith pat []
  | x :: t => leadsWith pat (x :: t) || containsSub pat t

/-- Index of the first occurrence of `pat` in `l` (JS `String.indexOf`). -/
def firstIdxOfSub (pat : List Char) : List Char → Option Nat
  | [] => if leadsWith pat [] then some 0 else none
  | x :: t =>
    if leadsWith pat (x :: t) then some 0
    else (firstIdxOfSub pat t).map (· + 1)

/-- Index of the last occurrence of `pat` in `l` (JS `String.lastIndexOf`). -/
def lastIdxOfSub (pat : List Char) : List Char → Option Nat
  | [] => if leadsWith pat [] then some 0 else none
  | x :: t =>
    match lastIdxOfSub pat t with
    | some j => some (j + 1)
    | none => if leadsWith pat (x :: t) then some 0 else none

/-- Index of the first occurrence of a single character in `l`. -/
def firstIdxOfCh (c : Char) : List Char → Option Nat
  | [] => none
  | x :: t => if x = c then some 0 else (firstIdxOfCh c t).map (· + 1)

/-- Index of the last occurrence of a single character in `l`. -/
def lastIdxOfCh (c : Char) : List Char → Option Nat
  | [] => none
  | x :: t =>
    match lastIdxOfCh c t with
    | some j => some (j + 1)
    | none => if x = c then some 0 else none

/-- JS `String.trim` (both ends, `\s`). -/
def jsTrimL (l : List Char) : List Char :=
  ((l.dropWhile jsWs).reverse.dropWhile jsWs).reverse

/-- JS `Array.join('\n')`. -/
def joinNlL : List (List Char) → List Char
  | [] => []
  | [m] => m
  | m :: rest => m ++ '\n' :: joinNlL rest

/-! ## A generic driver for JS `String.replace` with a global regex.

`scanRewriteSt f upd st l` walks `l` left to right.  At each position the
matcher `f` either reports a match — the replacement text, the number of
input characters the match consumed, and the scanner state to continue
with — or no match, in which case one character is copied and the state is
updated by `upd`.  This is exactly the behaviour of a JS global-`replace`:
matches are found leftmost-first on the input and scanning resumes after
each match (all matchers used here consume at least one character). -/

def scanRewriteAux {σ : Type} (f : σ → List Char → Option (List Char × Nat × σ))
    (upd : σ → Char → σ) : Nat → σ → List Char → List Char
  | 0, _, _ => []
  | _ + 1, _, [] => []
  | fuel + 1, st, c :: rest =>
    match f st (c :: rest) with
    | some (rep, k, st') => rep ++ scanRewriteAux f upd fuel st' (List.drop (max k 1 - 1) rest)
    | none => c :: scanRewriteAux f upd fuel (upd st c) rest

/-- The fuel (initialised to the text length) only bounds the recursion so
that it is structural and computes by reduction; every step consumes at
least one input character, so the bound is never reached. -/
def scanRewriteSt {σ : Type} (f : σ → List Char → Option (List Char × Nat × σ))
    (upd : σ → Char → σ) (st : σ) (l : List Char) : List Char :=
  scanRewriteAux f upd l.length st l

/-! ## github-service: slug derivation (`getSlug`) -/

/-- ASCII model of JS `toLowerCase` (only `A`–`Z` change; the slug pipeline
immediately replaces every character outside `[a-z0-9-]` by `-`, so the
exotic Unicode lowercasings that this model drops are dashed either way). -/
def jsLower (c : Char) : Char :=
  if 65 ≤ c.toNat ∧ c.toNat ≤ 90 then Char.ofNat (c.toNat + 32) else c

/-- Characters the slug keeps: `[a-z0-9-]`. -/
def slugChar (c : Char) : Bool :=
  (97 ≤ c.toNat && c.toNat ≤ 122) || (48 ≤ c.toNat && c.toNat ≤ 57) || c.toNat = 45

/-- The character replacement pass: anything outside `[a-z0-9-]`
becomes a dash. -/
def dashify (c : Char) : Char :=
  if slugChar c then c else '-'

/-- The dash-run collapse `replace(dash-plus, '-')`: each run of dashes
becomes a single dash. -/
def collapseDashes : List Char → List Char
  | [] => []
  | [c] => [c]
  | a :: b :: rest =>
    if a = '-' ∧ b = '-' then collapseDashes (b :: rest)
    else a :: collapseDashes (b :: rest)

/-- First half of the end-dash strip (`^-`): drop a leading dash. -/
def stripLeadDash (l : List Char) : List Char :=
  if l.head? = some '-' then l.tail else l

/-- Second half of the end-dash strip (`-$`): drop a trailing dash. -/
def stripTrailDash (l : List Char) : List Char :=
  if l.getLast? = some '-' then l.dropLast else l

/-- The end-dash strip (`^-` or `-$`, global): drop one leading and one
trailing dash. -/
def stripEndDashes (l : List Char) : List Char :=
  stripTrailDash (stripLeadDash l)

def getSlugL (l : List Char) : List Char :=
  stripEndDashes (collapseDashes ((l.map jsLower).map dashify))

/-- Definition: `getSlug` from src/lib/github-service.ts: lowercase, replace every
character outside `[a-z0-9-]` by a dash, collapse dash runs, strip one
leading and one trailing dash. -/
def getSlug (name : String) : String :=
  String.mk (getSlugL name.data)

/-- Definition: `getRepoUrl` from src/lib/github-service.ts. -/
def getRepoUrl (username : String) (repoName : String) : String :=
  "https://github.com/" ++ username ++ "/" ++ getSlug repoName

/-- Definition: `getEasBuildUrl` from src/lib/github-service.ts. -/
def getEasBuildUrl (username : String) (repoName : String) : String :=
  "https://expo.dev/accounts/" ++ username ++ "/projects/" ++ getSlug repoName ++ "/builds"

/-- No two consecutive dashes. -/
def noDoubleDash : List Char → Bool
  | a :: b :: rest => !(a = '-' && b = '-') && noDoubleDash (b :: rest)
  | _ => true

/-! ## github-service: repository creation (`createRepo` / `checkRepoExists`)

The GitHub REST surface is modelled as an explicit remote state (the
repositories that exist, keyed by slug) plus an environment describing the
one observable nondeterminism that matters to the idempotence claim:
whether the initial existence check manages to see an already-existing
repository (`checkRepoExists` returns `null` both for a missing repository
and for a failed request, which is what makes the 422 name-collision
recovery path in `createRepo` reachable).  Each run also returns the trace
of remote calls it performed. -/

structure GitHubRepo where
  name : String
  full_name : String
  html_url : String
  deriving DecidableEq, Repr

/-- The descriptor GitHub returns for a repository `owner/slug`. -/
def mkRepo (owner slug : String) : GitHubRepo :=
  { name := slug
    full_name := owner ++ "/" ++ slug
    html_url := "https://github.com/" ++ owner ++ "/" ++ slug }

/-- Remote state: repositories existing under the account, keyed by slug. -/
abbrev GHState := List (String × GitHubRepo)

def lookupRepo (st : GHState) (slug : String) : Option GitHubRepo :=
  (st.find? (fun p => p.1 = slug)).map (·.2)

inductive RepoCall
  | checkExists
  | createCall
  deriving DecidableEq, Repr

structure CreateEnv where
  /-- Whether the first existence check sees an existing repository.
  (`checkRepoExists` swallows request failures and returns `null`.) -/
  firstCheckSees : Bool

/-- Definition: `createRepo` from src/lib/github-service.ts: existence check, creation,
and the 422 name-collision recovery which re-runs the existence check.
The consistent-remote assumption: a create call answers 422
"name already exists" exactly when the slug is taken, and the recovery
re-check is answered honestly. -/
def createRepo (env : CreateEnv) (owner name : String) (st : GHState) :
    List RepoCall × Except String (GitHubRepo × GHState) :=
  let slug := getSlug name
  match (if env.firstCheckSees then lookupRepo st slug else none) with
  | some r => ([RepoCall.checkExists], Except.ok (r, st))
  | none =>
    match lookupRepo st slug with
    | some r =>
      -- create answers 422 name-already-exists; createRepo re-checks and reuses
      ([RepoCall.checkExists, RepoCall.createCall, RepoCall.checkExists],
        Except.ok (r, st))
    | none =>
      ([RepoCall.checkExists, RepoCall.createCall],
        Except.ok (mkRepo owner slug, (slug, mkRepo owner slug) :: st))

/-! ## github-service: publish (`pushCode`)

`pushCode` issues, in order: the branch-head read (up to 3 attempts), one
blob-create per manifest file, one tree-create, one commit-create, one
ref-update.  File contents do not influence this control flow, so the
environment records, per call, whether the remote accepted it; the model
returns the full ordered trace of calls together with the outcome. -/

inductive PushCall
  | getRef (attempt : Nat)
  | createBlob (path : String)
  | createTree
  | createCommit
  | updateRef
  deriving DecidableEq, Repr

inductive PushErr
  | repoNotReady
  | blobFailed (path : String)
  | treeFailed
  | commitFailed
  | refUpdateFailed
  deriving DecidableEq, Repr

structure PushEnv where
  refOk : Nat → Bool
  blobOk : String → Bool
  treeOk : Bool
  commitOk : Bool
  updateOk : Bool

/-- The fixed manifest `pushCode` builds (paths only; contents are
irrelevant to the call sequence). -/
def manifestPaths : List String :=
  ["App.js", "package.json", "app.json", "eas.json", "babel.config.js",
   "metro.config.js", ".gitignore", ".github/workflows/eas-build.yml"]

/-- The `for (retry = 0; retry < 3; ...)` branch-head read loop. -/
def refAttempts (env : PushEnv) : List Nat → List PushCall × Bool
  | [] => ([], false)
  | a :: rest =>
    if env.refOk a then ([PushCall.getRef a], true)
    else (PushCall.getRef a :: (refAttempts env rest).1, (refAttempts env rest).2)

/-- The per-file blob upload loop: aborts at the first failed upload. -/
def blobPhase (env : PushEnv) : List String → List PushCall × Except String Unit
  | [] => ([], Except.ok ())
  | p :: rest =>
    if env.blobOk p then
      (PushCall.createBlob p :: (blobPhase env rest).1, (blobPhase env rest).2)
    else ([PushCall.createBlob p], Except.error p)

/-- Definition: `pushCode` from src/lib/github-service.ts (remote-call structure):
branch-head read with 3 attempts, then one blob per manifest entry
(raising on the first failure), then tree create, commit create and the
ref update, each raising immediately on failure. -/
def pushCode (env : PushEnv) (files : List String) :
    List PushCall × Except PushErr Unit :=
  let t1 := (refAttempts env [0, 1, 2]).1
  if (refAttempts env [0, 1, 2]).2 then
    let t2 := (blobPhase env files).1
    match (blobPhase env files).2 with
    | Except.error p => (t1 ++ t2, Except.error (PushErr.blobFailed p))
    | Except.ok () =>
      if env.treeOk then
        if env.commitOk then
          if env.updateOk then
            (t1 ++ t2 ++ [PushCall.createTree, PushCall.createCommit, PushCall.updateRef],
              Except.ok ())
          else
            (t1 ++ t2 ++ [PushCall.createTree, PushCall.createCommit, PushCall.updateRef],
              Except.error PushErr.refUpdateFailed)
        else
          (t1 ++ t2 ++ [PushCall.createTree, PushCall.createCommit],
            Except.error PushErr.commitFailed)
      else (t1 ++ t2 ++ [PushCall.createTree], Except.error PushErr.treeFailed)
  else (t1, Except.error PushErr.repoNotReady)

/-! ## ai-service: provider list construction

`generateCode` and `generateClarifications` build the provider list the
same way: one entry per configured key (Gemini, Groq, HuggingFace, in that
order), a legacy-key fallback to Gemini, then a sort moving the preferred
provider first.  The sort comparator only distinguishes "name matches the
preferred id" from "does not", names are unique, and the runtime sort is
stable, so it is exactly a stable partition. -/

structure AppSettings where
  githubToken : String
  githubUsername : String
  expoUsername : String
  expoToken : String
  llmProvider : String
  llmApiKey : String
  geminiApiKey : String
  groqApiKey : String
  huggingfaceApiKey : String

def lowerStr (s : String) : String :=
  String.mk (s.data.map jsLower)

def sortPreferred (pref : String) (names : List String) : List String :=
  names.filter (fun n => lowerStr n = pref) ++ names.filter (fun n => lowerStr n ≠ pref)

def providerNamesOf (s : AppSettings) : List String :=
  let base :=
    (if s.geminiApiKey ≠ "" then ["Gemini"] else []) ++
    (if s.groqApiKey ≠ "" then ["Groq"] else []) ++
    (if s.huggingfaceApiKey ≠ "" then ["HuggingFace"] else [])
  let base' := if s.llmApiKey ≠ "" ∧ base.isEmpty then ["Gemini"] else base
  sortPreferred s.llmProvider base'

/-! ## ai-service: generation orchestrator (`generateCode`)

A provider invocation either throws (`crash`) or resolves to a text
(`reply`); which of the two, and with what payload, is fixed per provider
by the outcome oracle.  The loop of `generateCode` accepts the first reply
longer than 500 characters with at least 200 lines; anything else pushes
an error message and moves on.  `genLoop` returns the ordered list of
invoked provider names (the trace), the accumulated error messages, and
the accepted code, if any. -/

inductive GOutcome
  | crash (msg : String)
  | reply (code : String)
  deriving DecidableEq, Repr

structure GProvider where
  name : String
  outcome : GOutcome
  deriving DecidableEq, Repr

/-- JS `code.split('\n').length`. -/
def lineCount (s : String) : Nat :=
  (s.data.splitOn '\n').length

def tooLittleMsg (name : String) (n : Nat) : String :=
  name ++ ": generated too little code (" ++ toString n ++ " lines). Trying next provider..."

def insufficientMsg (name : String) : String :=
  name ++ ": returned insufficient code"

def genLoop : List GProvider → List String × List String × Option String
  | [] => ([], [], none)
  | p :: rest =>
    match p.outcome with
    | GOutcome.crash m =>
      (p.name :: (genLoop rest).1, (p.name ++ ": " ++ m) :: (genLoop rest).2.1,
        (genLoop rest).2.2)
    | GOutcome.reply c =>
      if 500 < c.length then
        if lineCount c < 200 then
          (p.name :: (genLoop rest).1, tooLittleMsg p.name (lineCount c) :: (genLoop rest).2.1,
            (genLoop rest).2.2)
        else ([p.name], [], some c)
      else
        (p.name :: (genLoop rest).1, insufficientMsg p.name :: (genLoop rest).2.1,
          (genLoop rest).2.2)

inductive GenErrClass
  | rateLimit
  | auth
  | generic
  deriving DecidableEq, Repr

def rateMarkers : List String := ["quota exceeded", "rate limit", "429"]

def authMarkers : List String := ["invalid", "401", "403"]

def errorSummary (errs : List String) : List Char :=
  joinNlL (errs.map String.data)

def hasAnyMarker (summary : List Char) (ms : List String) : Bool :=
  ms.any (fun m => containsSub m.data summary)

/-- The aggregate-error classification at the end of `generateCode`
(src/unnamed/part_004 lines 284–305): the joined error text is searched
for rate-limit markers first, then auth markers, else the generic error. -/
def classifyErrors (errs : List String) : GenErrClass :=
  let summary := errorSummary errs
  if hasAnyMarker summary rateMarkers then GenErrClass.rateLimit
  else if hasAnyMarker summary authMarkers then GenErrClass.auth
  else GenErrClass.generic

inductive GenFailure
  | noKeys
  | aggregate (c : GenErrClass)
  deriving DecidableEq, Repr

/-- Definition: `generateCode` from src/unnamed/part_004 (lines 223–306), over an
already-built provider list. -/
def generateCode (ps : List GProvider) : Except GenFailure String :=
  if ps.isEmpty then Except.error GenFailure.noKeys
  else
    match (genLoop ps).2.2 with
    | some c => Except.ok c
    | none => Except.error (GenFailure.aggregate (classifyErrors (genLoop ps).2.1))

def genTrace (ps : List GProvider) : List String :=
  (genLoop ps).1

/-- A provider outcome the loop accepts. -/
def acceptedOutcome : GOutcome → Bool
  | GOutcome.crash _ => false
  | GOutcome.reply c => 500 < c.length && !(lineCount c < 200)

/-- A provider outcome rejected by the acceptance check alone (a reply that
is too short or has too few lines), i.e. a validation failure. -/
def validationReject : GOutcome → Bool
  | GOutcome.crash _ => false
  | GOutcome.reply c => c.length ≤ 500 || lineCount c < 200

/-- A sample reply long enough for the acceptance check (501 characters,
502 lines). -/
def longSample : String :=
  String.mk (List.replicate 501 '\n')

/-- A sample provider list whose first backend throws and whose second
returns an acceptable reply. -/
def sampleProviders : List GProvider :=
  [{ name := "Gemini", outcome := GOutcome.crash "Gemini Lite: HTTP 500" },
   { name := "Groq", outcome := GOutcome.reply longSample }]

/-! ## Response sanitizer: fenced-block stripping

Shared between `cleanCodeResponse` (language tags javascript, jsx, js,
tsx, react) and `generateClarifications` (tag json).  The open-fence pass
is a global multiline replace anchored at line starts: three backticks, an
optional language tag (alternatives tried in source order), then greedily
all following whitespace (which subsumes the trailing optional newline of
the source pattern).  The close-fence pass matches three backticks
followed by whitespace up to a line end: either the whitespace run reaches
the end of the text, or the match stops just before the last newline of
that run (the greedy backtracking position); with no newline in the run
and text following, there is no line end to anchor on and no match. -/

def backtick : Char := Char.ofNat 96

def fenceOpenMatch (langs : List (List Char)) (atStart : Bool) (l : List Char) :
    Option (List Char × Nat × Bool) :=
  if atStart && leadsWith [backtick, backtick, backtick] l then
    let r := l.drop 3
    let langLen := ((langs.find? (fun w => leadsWith w r)).map List.length).getD 0
    let ws := (r.drop langLen).takeWhile jsWs
    some ([], 3 + langLen + ws.length, ws.getLast? == some '\n')
  else none

def stripOpenFences (langs : List (List Char)) (l : List Char) : List Char :=
  scanRewriteSt (fenceOpenMatch langs) (fun _ c => c == '\n') true l

def fenceCloseMatch (_ : Unit) (l : List Char) : Option (List Char × Nat × Unit) :=
  if leadsWith [backtick, backtick, backtick] l then
    let r := l.drop 3
    let run := r.takeWhile jsWs
    if run.length = r.length then some ([], 3 + run.length, ())
    else
      match lastIdxOfCh '\n' run with
      | some j => some ([], 3 + j, ())
      | none => none
  else none

def stripCloseFences (l : List Char) : List Char :=
  scanRewriteSt fenceCloseMatch (fun _ _ => ()) () l

def codeFenceLangs : List (List Char) :=
  ["javascript", "jsx", "js", "tsx", "react"].map String.data

def jsonFenceLangs : List (List Char) :=
  ["json"].map String.data

/-! ## Syntax repair engine (`fixCommonSyntaxErrors`, src/unnamed/part_004
lines 537–602)

Each textual regex pass of the source is realised through the
`scanRewriteSt` driver with a matcher transcribing the pattern.  Greedy
subpattern runs are maximal character runs here; in every pattern below
the character class following a greedy run is disjoint from the run's own
class, so the regex backtracking never settles on a shorter run and the
maximal-run reading is exact. -/

/-- Pass 1: a comma, optional whitespace, then a closing brace or bracket;
the comma is dropped. -/
def trailingCommaMatch (_ : Unit) (l : List Char) : Option (List Char × Nat × Unit) :=
  match l with
  | ',' :: rest =>
    let w := rest.takeWhile jsWs
    match rest.dropWhile jsWs with
    | d :: _ =>
      if d = '}' || d = ']' then some (w ++ [d], 1 + w.length + 1, ()) else none
    | [] => none
  | _ => none

def stripTrailingCommas (l : List Char) : List Char :=
  scanRewriteSt trailingCommaMatch (fun _ _ => ()) () l

/-- Pass 2: digits immediately followed by a CSS unit and a word boundary;
the unit is dropped.  A match can only begin at the head of a digit run:
a later start inside the run faces the same unit position, so a failed
run is skipped uniformly. -/
def cssUnits : List (List Char) :=
  ["px", "em", "rem", "vh", "vw", "pt", "dp", "sp"].map String.data

def wordBoundaryAt : List Char → Bool
  | [] => true
  | c :: _ => !isWordCh c

def unitLenAt (l : List Char) : Option Nat :=
  cssUnits.findSome? (fun u =>
    if leadsWith u l && wordBoundaryAt (l.drop u.length) then some u.length else none)

def unitSuffixMatch (_ : Unit) (l : List Char) : Option (List Char × Nat × Unit) :=
  match l with
  | c :: _ =>
    if isDigitCh c then
      let ds := l.takeWhile isDigitCh
      match unitLenAt (l.dropWhile isDigitCh) with
      | some k => some (ds, ds.length + k, ())
      | none => none
    else none
  | [] => none

def stripUnitSuffixes (l : List Char) : List Char :=
  scanRewriteSt unitSuffixMatch (fun _ _ => ()) () l

/-- Pass 3: a colon, whitespace, digits, a percent sign, whitespace, then
a comma, semicolon or closing brace; rewritten to colon, one space, the
digits and the closer (the percent sign is dropped). -/
def percentMatch (_ : Unit) (l : List Char) : Option (List Char × Nat × Unit) :=
  match l with
  | ':' :: rest =>
    let w1 := rest.takeWhile jsWs
    let r1 := rest.dropWhile jsWs
    let ds := r1.takeWhile isDigitCh
    if ds.isEmpty then none
    else
      match r1.dropWhile isDigitCh with
      | '%' :: r3 =>
        let w2 := r3.takeWhile jsWs
        match r3.dropWhile jsWs with
        | d :: _ =>
          if d = ',' || d = ';' || d = '}' then
            some (':' :: ' ' :: (ds ++ [d]),
              1 + w1.length + ds.length + 1 + w2.length + 1, ())
          else none
        | [] => none
      | _ => none
  | _ => none

def fixPercentValues (l : List Char) : List Char :=
  scanRewriteSt percentMatch (fun _ _ => ()) () l

/-- Pass 4 of the source rewrites every quoted numeric percent to exactly
itself (the replacement template reproduces the match), so at the text
level this pass is the identity. -/
def fixQuotedPercents (l : List Char) : List Char := l

/-- Pass 5: digits, mandatory whitespace, then one of the number words
with an optional plural `s` and a word boundary, guarded by a negative
lookbehind (no letter, underscore, dollar or quote directly before the
digits); the word and the separating whitespace are dropped.  The state
threads the previous input character for the lookbehind. -/
def numberWords : List (List Char) :=
  ["second", "minute", "hour", "item", "time", "day"].map String.data

def numberWordLen (l : List Char) : Option (Nat × Char) :=
  numberWords.findSome? (fun w =>
    if leadsWith w l then
      match l.drop w.length with
      | 's' :: r2 => if wordBoundaryAt r2 then some (w.length + 1, 's') else none
      | r1 => if wordBoundaryAt r1 then some (w.length, (w.getLast?.getD ' ')) else none
    else none)

def lookbehindBlocked : Option Char → Bool
  | none => false
  | some p =>
    isAlphaCh p || p = '_' || p = '$' || p = Char.ofNat 34 || p = Char.ofNat 39 || p = backtick

def numberWordMatch (prev : Option Char) (l : List Char) :
    Option (List Char × Nat × Option Char) :=
  match l with
  | c :: _ =>
    if isDigitCh c && !lookbehindBlocked prev then
      let ds := l.takeWhile isDigitCh
      let after := l.dropWhile isDigitCh
      let ws := after.takeWhile jsWs
      if ws.isEmpty then none
      else
        match numberWordLen (after.dropWhile jsWs) with
        | some (k, lastc) => some (ds, ds.length + ws.length + k, some lastc)
        | none => none
    else none
  | [] => none

def stripNumberWords (l : List Char) : List Char :=
  scanRewriteSt numberWordMatch (fun _ c => some c) none l

/-- Pass 6 (two instances): a brace (resp. comma), whitespace, digits then
letters, whitespace, then a colon; the key is wrapped in single quotes. -/
def digitKeyMatch (lead : Char) (_ : Unit) (l : List Char) :
    Option (List Char × Nat × Unit) :=
  match l with
  | c :: rest =>
    if c = lead then
      let w1 := rest.takeWhile jsWs
      let r1 := rest.dropWhile jsWs
      let ds := r1.takeWhile isDigitCh
      let r2 := r1.dropWhile isDigitCh
      let as := r2.takeWhile isAlphaCh
      let r3 := r2.dropWhile isAlphaCh
      if ds.isEmpty || as.isEmpty then none
      else
        let w2 := r3.takeWhile jsWs
        match r3.dropWhile jsWs with
        | ':' :: _ =>
          some (lead :: ' ' :: Char.ofNat 39 :: ((ds ++ as) ++ [Char.ofNat 39, ':']),
            1 + w1.length + ds.length + as.length + w2.length + 1, ())
        | _ => none
    else none
  | [] => none

def quoteDigitKeys (lead : Char) (l : List Char) : List Char :=
  scanRewriteSt (digitKeyMatch lead) (fun _ _ => ()) () l

/-- Pass 7: on each line, from the first `//` on, characters above 0x7F
are removed (the multiline dot excludes the newline, modelled as the line
separator here). -/
def asciiOnly (l : List Char) : List Char :=
  l.filter (fun c => c.toNat ≤ 127)

def stripCommentLine : List Char → List Char
  | [] => []
  | [a] => [a]
  | a :: b :: rest =>
    if a = '/' && b = '/' then '/' :: '/' :: asciiOnly rest
    else a :: stripCommentLine (b :: rest)

def stripCommentNonAscii (l : List Char) : List Char :=
  joinNlL ((l.splitOn '\n').map stripCommentLine)

/-! ### The bracket-balancing scan (lines 558–591 of the source)

A single left-to-right scan with a mode among normal, single- or
double-quoted string, and template literal; quote transitions consult the
raw previous character for the backslash-escape test, exactly as the
source does (`prev` is the previous character of the text, whether or not
it was itself escaped). -/

inductive ScanMode
  | normal
  | inStr (q : Char)
  | inTpl
  deriving DecidableEq, Repr

structure ScanSt where
  mode : ScanMode
  brace : Int
  paren : Int
  brack : Int
  prev : Option Char
  deriving DecidableEq, Repr

def scanInit : ScanSt :=
  { mode := ScanMode.normal, brace := 0, paren := 0, brack := 0, prev := none }

def scanStep (st : ScanSt) (c : Char) : ScanSt :=
  let st' :=
    match st.mode with
    | ScanMode.inStr q =>
      if c = q ∧ st.prev ≠ some '\\' then { st with mode := ScanMode.normal } else st
    | ScanMode.inTpl =>
      if c = backtick ∧ st.prev ≠ some '\\' then { st with mode := ScanMode.normal } else st
    | ScanMode.normal =>
      if c = Char.ofNat 34 ∨ c = Char.ofNat 39 then { st with mode := ScanMode.inStr c }
      else if c = backtick then { st with mode := ScanMode.inTpl }
      else if c = '{' then { st with brace := st.brace + 1 }
      else if c = '}' then { st with brace := st.brace - 1 }
      else if c = '(' then { st with paren := st.paren + 1 }
      else if c = ')' then { st with paren := st.paren - 1 }
      else if c = '[' then { st with brack := st.brack + 1 }
      else if c = ']' then { st with brack := st.brack - 1 }
      else st
  { st' with prev := some c }

def scanList (st : ScanSt) (l : List Char) : ScanSt :=
  l.foldl scanStep st

/-- The closing tokens appended after the scan: `"\n}"` per remaining
positive brace count, then `)` and `]` per remaining positive counts. -/
def braceClosers : Nat → List Char
  | 0 => []
  | n + 1 => '\n' :: '}' :: braceClosers n

def closersFor (st : ScanSt) : List Char :=
  braceClosers st.brace.toNat ++
    List.replicate st.paren.toNat ')' ++ List.replicate st.brack.toNat ']'

def balanceBrackets (l : List Char) : List Char :=
  l ++ closersFor (scanList scanInit l)

/-! ### Export-statement normalisation (lines 592–599 of the source) -/

def chomp (pat : List Char) (l : List Char) : Option (List Char) :=
  if leadsWith pat l then some (l.drop pat.length) else none

def exportWord : List Char := "export".data

def defaultWord : List Char := "default".data

def appWord : List Char := "App".data

def constWord : List Char := "const".data

def functionWord : List Char := "function".data

/-- After `App`: whitespace interleaving at most one semicolon, reaching a
newline — the only way `App\s*;?\s*\n` can complete. -/
def wsSemiNl : Bool → List Char → Bool
  | _, [] => false
  | seenSemi, c :: rest =>
    if c = '\n' then true
    else if jsWs c then wsSemiNl seenSemi rest
    else if c = ';' && !seenSemi then wsSemiNl true rest
    else false

/-- Start of a match of the truncation pattern
`export \s+ default \s+ App \s* ;? \s* newline (anything) $`. -/
def exportTailAt (l : List Char) : Bool :=
  match chomp exportWord l with
  | none => false
  | some r1 =>
    if (r1.takeWhile jsWs).isEmpty then false
    else
      match chomp defaultWord (r1.dropWhile jsWs) with
      | none => false
      | some r2 =>
        if (r2.takeWhile jsWs).isEmpty then false
        else
          match chomp appWord (r2.dropWhile jsWs) with
          | none => false
          | some r3 => wsSemiNl false r3

def exportLine : List Char := "export default App;".data

/-- The non-global replace of the truncation pattern: everything from the
first match position to the end of the text becomes `export default App;`. -/
def exportTruncate : List Char → List Char
  | [] => []
  | c :: rest => if exportTailAt (c :: rest) then exportLine else c :: exportTruncate rest

/-- A position matching `export \s+ default \s` (the existence test). -/
def exportDefaultAt (l : List Char) : Bool :=
  match chomp exportWord l with
  | none => false
  | some r1 =>
    if (r1.takeWhile jsWs).isEmpty then false
    else
      match chomp defaultWord (r1.dropWhile jsWs) with
      | none => false
      | some r2 =>
        match r2 with
        | c :: _ => jsWs c
        | [] => false

def anyPos (p : List Char → Bool) : List Char → Bool
  | [] => p []
  | c :: t => p (c :: t) || anyPos p t

def declWords : List (List Char) :=
  ["const", "function", "class"].map String.data

/-- A position matching `(const or function or class) \s+ App` with a word
boundary after `App`. -/
def appDeclAt (l : List Char) : Bool :=
  declWords.any (fun w =>
    match chomp w l with
    | none => false
    | some r =>
      !(r.takeWhile jsWs).isEmpty &&
        (match chomp appWord (r.dropWhile jsWs) with
         | none => false
         | some r2 => wordBoundaryAt r2))

def appendLine : List Char := "\n\nexport default App;".data

def exportEnsure (l : List Char) : List Char :=
  if anyPos exportDefaultAt l then l
  else if anyPos appDeclAt l then l ++ appendLine
  else l

/-- The seven textual passes that precede the bracket balancer. -/
def preBalance (l : List Char) : List Char :=
  stripCommentNonAscii
    (quoteDigitKeys ','
      (quoteDigitKeys '{'
        (stripNumberWords
          (fixQuotedPercents
            (fixPercentValues
              (stripUnitSuffixes
                (stripTrailingCommas l)))))))

def fixCommonSyntaxErrorsL (l : List Char) : List Char :=
  exportEnsure (exportTruncate (balanceBrackets (preBalance l)))

/-- Definition: `fixCommonSyntaxErrors` from src/unnamed/part_004 (lines 537–602). -/
def fixCommonSyntaxErrors (s : String) : String :=
  String.mk (fixCommonSyntaxErrorsL s.data)

/-! ## Response sanitizer (`cleanCodeResponse`, lines 510–535) -/

def importWord : List Char := "import".data

def reactWord : List Char := "React".data

/-- A position matching `import \s+ React`. -/
def importReactAt (l : List Char) : Bool :=
  match chomp importWord l with
  | none => false
  | some r =>
    !(r.takeWhile jsWs).isEmpty && leadsWith reactWord (r.dropWhile jsWs)

def firstMatchIdx (p : List Char → Bool) : List Char → Option Nat
  | [] => none
  | c :: t => if p (c :: t) then some 0 else (firstMatchIdx p t).map (· + 1)

/-- The lazy prefix discard: everything before the first `import \s+ React`
occurrence is dropped (the replacement keeps the captured group, i.e. the
text from the occurrence on). -/
def cutToImportReact (l : List Char) : List Char :=
  match firstMatchIdx importReactAt l with
  | some i => l.drop i
  | none => l

def exportDefaultStr : List Char := "export default".data

def styleEndStr : List Char := "\x7d);".data

def slashSlash : List Char := ['/', '/']

/-- The tail-discard heuristic of `cleanCodeResponse`: locate the later of
the last `export default` and the last `\x7d);`, compute the cut position,
and drop the tail unless it looks like further legitimate code. -/
def cutTail (l : List Char) : List Char :=
  let lastExport : Int :=
    match lastIdxOfSub exportDefaultStr l with
    | some i => (i : Int)
    | none => -1
  let lastStyle : Int :=
    match lastIdxOfSub styleEndStr l with
    | some i => (i : Int)
    | none => -1
  let cutPoint : Int := max lastExport lastStyle
  if 0 < cutPoint then
    let cp : Nat := cutPoint.toNat
    let endIdx : Nat :=
      if leadsWith exportDefaultStr (l.drop cp) then
        match firstIdxOfCh ';' (l.drop cp) with
        | some rel => if 0 < cp + rel then cp + rel + 1 else cp
        | none => cp
      else cp + 3
    let afterEnd := jsTrimL (l.drop endIdx)
    if !afterEnd.isEmpty
        && !leadsWith exportWord afterEnd
        && !leadsWith constWord afterEnd
        && !leadsWith functionWord afterEnd
        && !leadsWith slashSlash afterEnd then
      l.take endIdx
    else l
  else l

def cleanCodeResponseL (l : List Char) : List Char :=
  jsTrimL
    (fixCommonSyntaxErrorsL
      (cutTail
        (cutToImportReact
          (stripCloseFences
            (stripOpenFences codeFenceLangs l)))))

/-- Definition: `cleanCodeResponse` from src/unnamed/part_004 (lines 510–535). -/
def cleanCodeResponse (s : String) : String :=
  String.mk (cleanCodeResponseL s.data)

/-! ## ai-service: clarification service (`generateClarifications`,
src/unnamed/part_004 lines 111–183)

The raw backend response is cleaned of fences, the first array-shaped
substring (first `[` through last `]`) is extracted and handed to
`JSON.parse`.  The JSON grammar itself is not re-implemented here: the
parse is a parameter `parse : String → Option JVal` of the model (`none`
standing for a parse exception), while everything after the parse — the
shape acceptance and the mapping into question/options records, including
the member accesses that throw on `null` and the `slice`/`map` calls that
throw on non-arrays, all of which the source's catch turns into a move to
the next provider — is modelled faithfully on the parsed value. -/

inductive JVal
  | jnull
  | jbool (b : Bool)
  | jnum (n : Int)
  | jstr (s : String)
  | jarr (elems : List JVal)
  | jobj (fields : List (String × JVal))

/-- JS property access on a parsed JSON value: `none` is `undefined`
(access on a non-object yields `undefined`; access on `null` is handled at
the use sites, where it throws). -/
def getField : JVal → String → Option JVal
  | JVal.jobj fs, k => (fs.find? (fun p => p.1 = k)).map (·.2)
  | _, _ => none

def truthy : JVal → Bool
  | JVal.jnull => false
  | JVal.jbool b => b
  | JVal.jnum n => n ≠ 0
  | JVal.jstr s => s ≠ ""
  | JVal.jarr _ => true
  | JVal.jobj _ => true

def truthyOpt : Option JVal → Bool
  | none => false
  | some v => truthy v

mutual

/-- JS `String(x)` on parsed JSON values (arrays join their elements with
commas, `null` elements joining as empty). -/
def jToString : JVal → String
  | JVal.jnull => "null"
  | JVal.jbool b => if b then "true" else "false"
  | JVal.jnum n => toString n
  | JVal.jstr s => s
  | JVal.jobj _ => "[object Object]"
  | JVal.jarr xs => jArrToString xs

def jArrToString : List JVal → String
  | [] => ""
  | [JVal.jnull] => ""
  | [x] => jToString x
  | JVal.jnull :: rest => "," ++ jArrToString rest
  | x :: rest => jToString x ++ "," ++ jArrToString rest

end

structure ClarifyQuestion where
  question : String
  options : List String
  deriving DecidableEq, Repr

def questionKey : String := "question"

def optionsKey : String := "options"

/-- The element mapping
`q => (question: String(q.question), options: (q.options or []).slice(0,4).map(String))`:
`none` when the JS evaluation throws (member access on `null`, or
`slice`/`map` on a truthy non-array `options`). -/
def mapQ : JVal → Option ClarifyQuestion
  | JVal.jnull => none
  | q =>
    let qs :=
      match getField q questionKey with
      | none => "undefined"
      | some v => jToString v
    match getField q optionsKey with
    | none => some { question := qs, options := [] }
    | some v =>
      if truthy v then
        match v with
        | JVal.jarr os => some { question := qs, options := (os.take 4).map jToString }
        | _ => none
      else some { question := qs, options := [] }

/-- JS `Array.map` with a callback that can throw: the first element on
which `mapQ` throws aborts the whole mapping. -/
def mapThrow : List JVal → Option (List ClarifyQuestion)
  | [] => some []
  | x :: rest =>
    match mapQ x with
    | none => none
    | some q =>
      match mapThrow rest with
      | none => none
      | some qs => some (q :: qs)

/-- The test `parsed[0].question && parsed[0].options` on the first
element: `false` both when a member is falsy and when the element is
`null` (where the member access throws, which the caller's catch turns
into the same move-on behaviour). -/
def firstElemOk : JVal → Bool
  | JVal.jnull => false
  | x0 => truthyOpt (getField x0 questionKey) && truthyOpt (getField x0 optionsKey)

/-- The acceptance test and mapping of lines 154–158: the parsed value is
an array of length at least 2 whose FIRST element has truthy `question`
and `options` members; on acceptance the first four elements are mapped. -/
def acceptClarifications : JVal → Option (List ClarifyQuestion)
  | JVal.jarr xs =>
    if 2 ≤ xs.length then
      match xs with
      | [] => none
      | x0 :: _ => if firstElemOk x0 then mapThrow (xs.take 4) else none
    else none
  | _ => none

/-- A parsed element on which the result mapping does not throw. -/
def elemMappable : JVal → Bool
  | JVal.jnull => false
  | q =>
    match getField q optionsKey with
    | none => true
    | some v =>
      !truthy v ||
        (match v with
         | JVal.jarr _ => true
         | _ => false)

def nonNull : JVal → Bool
  | JVal.jnull => false
  | _ => true

/-- Modelled from the spec (§4.5), amended to the code's behaviour: the
acceptance condition stated independently of the implementation — an
array of length at least two whose first element is non-null with truthy
`question` and `options` members (an empty options array counts as
truthy), every one of the first four elements being mappable without a
thrown error.  Compared against `acceptClarifications` below. -/
def clarifyAcceptSpec : JVal → Bool
  | JVal.jarr (x0 :: rest) =>
    decide (2 ≤ (x0 :: rest).length)
      && nonNull x0
      && truthyOpt (getField x0 questionKey)
      && truthyOpt (getField x0 optionsKey)
      && ((x0 :: rest).take 4).all elemMappable
  | _ => false

/-- A parsed response whose second element exposes neither `question` nor
`options` and whose first element has an empty options list. -/
def defectiveClarifyArray : JVal :=
  JVal.jarr
    [JVal.jobj [(questionKey, JVal.jstr "What data matters?"), (optionsKey, JVal.jarr [])],
     JVal.jobj []]

/-- Extraction of the first array-shaped substring: the greedy
`[ ... anything ... ]` match runs from the first `[` to the last `]`. -/
def jsonArraySlice (l : List Char) : Option (List Char) :=
  match firstIdxOfCh '[' l, lastIdxOfCh ']' l with
  | some i, some j => if i < j then some ((l.drop i).take (j - i + 1)) else none
  | _, _ => none

def cleanClarifyRaw (l : List Char) : List Char :=
  jsTrimL (stripCloseFences (stripOpenFences jsonFenceLangs l))

inductive CResp
  | crash (msg : String)
  | reply (raw : String)
  deriving Repr

structure CProvider where
  name : String
  resp : CResp

/-- One provider attempt of the clarification loop: `none` means the
attempt is abandoned (thrown call, no array-shaped substring, parse
failure, or shape rejection) and the loop moves on. -/
def tryClarifyProvider (parse : String → Option JVal) : CResp → Option (List ClarifyQuestion)
  | CResp.crash _ => none
  | CResp.reply raw =>
    match jsonArraySlice (cleanClarifyRaw raw.data) with
    | none => none
    | some seg =>
      match parse (String.mk seg) with
      | none => none
      | some v => acceptClarifications v

/-- Definition: `getDefaultClarifications` from src/unnamed/part_004 (lines 168–183). -/
def getDefaultClarifications (_prompt : String) : List ClarifyQuestion :=
  [ { question := "What should users see on the home screen?"
      options := ["List of items with search", "Dashboard with stats and quick actions",
                  "Feed with cards and filters", "Map or visual overview"] },
    { question := "What key features should the app include?"
      options := ["Favorites, ratings, and reviews", "Booking or scheduling system",
                  "Categories with filtering and sorting", "History tracking and analytics"] },
    { question := "What extra features would make this app stand out?"
      options := ["Price comparison and deals", "User profiles with activity history",
                  "Notifications and reminders", "Social sharing and recommendations"] } ]

def noKeysMsg : String :=
  "No AI API keys configured. Go to Settings and add at least one API key."

def clarifyLoop (parse : String → Option JVal) (prompt : String) :
    List CProvider → List ClarifyQuestion
  | [] => getDefaultClarifications prompt
  | p :: rest =>
    match tryClarifyProvider parse p.resp with
    | some qs => qs
    | none => clarifyLoop parse prompt rest

/-- Definition: `generateClarifications` from src/unnamed/part_004 (lines 111–166):
with no configured provider it throws; otherwise every per-provider
failure is swallowed and the loop falls back to the default list. -/
def generateClarifications (parse : String → Option JVal) (prompt : String)
    (providers : List CProvider) : Except String (List ClarifyQuestion) :=
  if providers.isEmpty then Except.error noKeysMsg
  else Except.ok (clarifyLoop parse prompt providers)

/-! ## Auxiliary predicates used by the theorems -/

/-- A message free of every rate-limit and auth marker the aggregate-error
classifier searches for. -/
def markerFree (s : String) : Bool :=
  !(hasAnyMarker s.data rateMarkers || hasAnyMarker s.data authMarkers)

/-- A character the bracket scan is indifferent to in normal mode: not a
quote, backtick, or bracket. -/
def scanPlain (c : Char) : Bool :=
  !(c = Char.ofNat 34 || c = Char.ofNat 39 || c = backtick ||
    c = '{' || c = '}' || c = '(' || c = ')' || c = '[' || c = ']')

/-! # Theorems

## Slug normal form and idempotence -/

theorem slugChar_dashify (c : Char) : slugChar (dashify c) = true := by
  unfold dashify
  split
  · assumption
  · decide

theorem collapseDashes_all (P : Char → Prop) :
    ∀ l : List Char, (∀ c ∈ l, P c) → ∀ c ∈ collapseDashes l, P c
  | [], h => by simp [collapseDashes]
  | [a], h => by simpa [collapseDashes] using h
  | a :: b :: rest, h => by
    intro c hc
    by_cases hd : a = '-' ∧ b = '-'
    · rw [collapseDashes, if_pos hd] at hc
      exact collapseDashes_all P (b :: rest)
        (fun x hx => h x (List.mem_cons_of_mem a hx)) c hc
    · rw [collapseDashes, if_neg hd] at hc
      rcases List.mem_cons.mp hc with h1 | h2
      · exact h1 ▸ h a (List.mem_cons_self a _)
      · exact collapseDashes_all P (b :: rest)
          (fun x hx => h x (List.mem_cons_of_mem a hx)) c h2

theorem collapseDashes_cons (b : Char) :
    ∀ rest : List Char, ∃ t, collapseDashes (b :: rest) = b :: t
  | [] => ⟨[], rfl⟩
  | c :: r => by
    by_cases hd : b = '-' ∧ c = '-'
    · obtain ⟨t, ht⟩ := collapseDashes_cons c r
      refine ⟨t, ?_⟩
      rw [collapseDashes, if_pos hd, ht, hd.1, hd.2]
    · exact ⟨collapseDashes (c :: r), by rw [collapseDashes, if_neg hd]⟩

theorem noDoubleDash_tail {a : Char} {t : List Char}
    (h : noDoubleDash (a :: t) = true) : noDoubleDash t = true := by
  cases t with
  | nil => rfl
  | cons b r =>
    rw [noDoubleDash, Bool.and_eq_true] at h
    exact h.2

theorem noDoubleDash_collapseDashes : ∀ l : List Char, noDoubleDash (collapseDashes l) = true
  | [] => rfl
  | [_] => rfl
  | a :: b :: rest => by
    by_cases hd : a = '-' ∧ b = '-'
    · rw [collapseDashes, if_pos hd]
      exact noDoubleDash_collapseDashes (b :: rest)
    · rw [collapseDashes, if_neg hd]
      obtain ⟨t, ht⟩ := collapseDashes_cons b rest
      have hrec := noDoubleDash_collapseDashes (b :: rest)
      rw [ht] at hrec ⊢
      rw [noDoubleDash, Bool.and_eq_true]
      refine ⟨?_, hrec⟩
      rcases not_and_or.mp hd with h1 | h1 <;> simp [h1]

theorem noDoubleDash_dropLast : ∀ l : List Char,
    noDoubleDash l = true → noDoubleDash l.dropLast = true
  | [], _ => rfl
  | [_], _ => rfl
  | a :: b :: rest, h => by
    rw [noDoubleDash, Bool.and_eq_true] at h
    rw [List.dropLast_cons₂]
    cases rest with
    | nil => rfl
    | cons c r =>
      rw [List.dropLast_cons₂]
      have hrec := noDoubleDash_dropLast (b :: c :: r) h.2
      rw [List.dropLast_cons₂] at hrec
      rw [noDoubleDash, Bool.and_eq_true]
      exact ⟨h.1, hrec⟩

theorem noDoubleDash_getLast?_dropLast : ∀ l : List Char,
    noDoubleDash l = true → l.getLast? = some '-' →
    l.dropLast.getLast? ≠ some '-'
  | [], _, hl => by simp at hl
  | [_], _, _ => by simp
  | [a, b], h, hl => by
    have hb : b = '-' := by simpa using hl
    subst hb
    have ha : ¬ a = '-' := by
      rw [noDoubleDash, Bool.and_eq_true] at h
      simpa using h.1
    simpa using ha
  | a :: b :: c :: r, h, hl => by
    rw [noDoubleDash, Bool.and_eq_true] at h
    rw [List.getLast?_cons_cons] at hl
    have hrec := noDoubleDash_getLast?_dropLast (b :: c :: r) h.2 hl
    rw [List.dropLast_cons₂, List.dropLast_cons₂, List.getLast?_cons_cons,
      ← List.dropLast_cons₂]
    exact hrec

theorem head?_ne_dash_of_noDoubleDash {t : List Char}
    (h : noDoubleDash ('-' :: t) = true) : t.head? ≠ some '-' := by
  cases t with
  | nil => simp
  | cons b r =>
    rw [noDoubleDash, Bool.and_eq_true] at h
    have h1 := h.1
    intro hb
    rw [List.head?_cons, Option.some.injEq] at hb
    rw [hb] at h1
    simp at h1

theorem stripLeadDash_head (l : List Char) (hnd : noDoubleDash l = true) :
    (stripLeadDash l).head? ≠ some '-' := by
  unfold stripLeadDash
  split
  · rename_i h
    cases l with
    | nil => simp at h
    | cons c t =>
      simp only [List.head?_cons, Option.some.injEq] at h
      subst h
      simp only [List.tail_cons]
      exact head?_ne_dash_of_noDoubleDash hnd
  · rename_i h
    exact h

theorem stripTrailDash_last (l : List Char) (hnd : noDoubleDash l = true) :
    (stripTrailDash l).getLast? ≠ some '-' := by
  unfold stripTrailDash
  split
  · rename_i h
    exact noDoubleDash_getLast?_dropLast l hnd h
  · rename_i h
    exact h

theorem stripTrailDash_head (l : List Char) (hh : l.head? ≠ some '-') :
    (stripTrailDash l).head? ≠ some '-' := by
  unfold stripTrailDash
  split
  · rw [List.head?_dropLast]
    split
    · exact hh
    · simp
  · exact hh

theorem stripLeadDash_all {P : Char → Prop} (l : List Char) (h : ∀ c ∈ l, P c) :
    ∀ c ∈ stripLeadDash l, P c := by
  unfold stripLeadDash
  split
  · intro c hc
    exact h c (List.mem_of_mem_tail hc)
  · exact h

theorem stripTrailDash_all {P : Char → Prop} (l : List Char) (h : ∀ c ∈ l, P c) :
    ∀ c ∈ stripTrailDash l, P c := by
  unfold stripTrailDash
  split
  · intro c hc
    exact h c ((List.dropLast_sublist l).mem hc)
  · exact h

theorem stripLeadDash_noDD (l : List Char) (hnd : noDoubleDash l = true) :
    noDoubleDash (stripLeadDash l) = true := by
  unfold stripLeadDash
  split
  · cases l with
    | nil => rfl
    | cons c t =>
      simp only [List.tail_cons]
      exact noDoubleDash_tail hnd
  · exact hnd

theorem stripTrailDash_noDD (l : List Char) (hnd : noDoubleDash l = true) :
    noDoubleDash (stripTrailDash l) = true := by
  unfold stripTrailDash
  split
  · exact noDoubleDash_dropLast l hnd
  · exact hnd

theorem stripLeadDash_fixpoint (l : List Char) (hh : l.head? ≠ some '-') :
    stripLeadDash l = l := by
  unfold stripLeadDash
  rw [if_neg hh]

theorem stripTrailDash_fixpoint (l : List Char) (hl : l.getLast? ≠ some '-') :
    stripTrailDash l = l := by
  unfold stripTrailDash
  rw [if_neg hl]

theorem collapseDashes_fixpoint : ∀ l : List Char,
    noDoubleDash l = true → collapseDashes l = l
  | [], _ => rfl
  | [_], _ => rfl
  | a :: b :: rest, h => by
    rw [noDoubleDash, Bool.and_eq_true] at h
    have hpair : ¬(a = '-' ∧ b = '-') := by
      rintro ⟨ha, hb⟩
      have h1 := h.1
      rw [ha, hb] at h1
      simp at h1
    rw [collapseDashes, if_neg hpair, collapseDashes_fixpoint (b :: rest) h.2]

theorem map_jsLower_fixpoint (l : List Char) (h : ∀ c ∈ l, slugChar c = true) :
    l.map jsLower = l := by
  have h' : ∀ c ∈ l, jsLower c = id c := by
    intro c hc
    have hs := h c hc
    simp only [slugChar, Bool.or_eq_true, Bool.and_eq_true, decide_eq_true_eq] at hs
    unfold jsLower
    rw [if_neg]
    · rfl
    · omega
  rw [List.map_congr_left h', List.map_id]

theorem map_dashify_fixpoint (l : List Char) (h : ∀ c ∈ l, slugChar c = true) :
    l.map dashify = l := by
  have h' : ∀ c ∈ l, dashify c = id c := by
    intro c hc
    unfold dashify
    rw [if_pos (h c hc)]
    rfl
  rw [List.map_congr_left h', List.map_id]

theorem getSlugL_all (l : List Char) : ∀ c ∈ getSlugL l, slugChar c = true := by
  unfold getSlugL stripEndDashes
  have h1 : ∀ c ∈ (l.map jsLower).map dashify, slugChar c = true := by
    intro x hx
    rcases List.mem_map.mp hx with ⟨y, _, hy⟩
    exact hy ▸ slugChar_dashify y
  exact stripTrailDash_all _ (stripLeadDash_all _
    (collapseDashes_all _ _ h1))

theorem getSlugL_noDD (l : List Char) : noDoubleDash (getSlugL l) = true := by
  unfold getSlugL stripEndDashes
  exact stripTrailDash_noDD _ (stripLeadDash_noDD _ (noDoubleDash_collapseDashes _))

theorem getSlugL_head (l : List Char) : (getSlugL l).head? ≠ some '-' := by
  unfold getSlugL stripEndDashes
  exact stripTrailDash_head _ (stripLeadDash_head _ (noDoubleDash_collapseDashes _))

theorem getSlugL_last (l : List Char) : (getSlugL l).getLast? ≠ some '-' := by
  unfold getSlugL stripEndDashes
  exact stripTrailDash_last _ (stripLeadDash_noDD _ (noDoubleDash_collapseDashes _))

theorem getSlugL_fixpoint (l : List Char)
    (hall : ∀ c ∈ l, slugChar c = true) (hnd : noDoubleDash l = true)
    (hh : l.head? ≠ some '-') (hl : l.getLast? ≠ some '-') :
    getSlugL l = l := by
  unfold getSlugL stripEndDashes
  rw [map_jsLower_fixpoint l hall, map_dashify_fixpoint l hall,
    collapseDashes_fixpoint l hnd, stripLeadDash_fixpoint l hh,
    stripTrailDash_fixpoint l hl]

/-- C10: Every public publish operation addresses the repository by the
derived slug `getSlug name`: `getRepoUrl`/`getEasBuildUrl` build their URLs
from it (and `createRepo`/`pushCode` below take the slug the same way);
for every name the slug contains only lowercase letters, digits and
hyphens, never two consecutive hyphens, never a leading or trailing
hyphen, and `getSlug` is idempotent, so repeated operations on the same
name target the same repository. -/
theorem getSlug_normal_form (name username : String) :
    (∀ c ∈ (getSlug name).data, slugChar c = true) ∧
    noDoubleDash (getSlug name).data = true ∧
    (getSlug name).data.head? ≠ some '-' ∧
    (getSlug name).data.getLast? ≠ some '-' ∧
    getSlug (getSlug name) = getSlug name ∧
    getRepoUrl username name = "https://github.com/" ++ username ++ "/" ++ getSlug name ∧
    getEasBuildUrl username name =
      "https://expo.dev/accounts/" ++ username ++ "/projects/" ++ getSlug name ++ "/builds" := by
  refine ⟨getSlugL_all name.data, getSlugL_noDD name.data, getSlugL_head name.data,
    getSlugL_last name.data, ?_, rfl, rfl⟩
  show String.mk (getSlugL (getSlug name).data) = getSlug name
  show String.mk (getSlugL (getSlugL name.data)) = getSlug name
  rw [getSlugL_fixpoint _ (getSlugL_all _) (getSlugL_noDD _) (getSlugL_head _)
    (getSlugL_last _)]
  rfl

/-! ## Idempotent repository creation (C9) -/

theorem lookupRepo_cons_self (slug : String) (r : GitHubRepo) (st : GHState) :
    lookupRepo ((slug, r) :: st) slug = some r := by
  unfold lookupRepo
  simp [List.find?]

/-- After any successful `createRepo`, the repository is registered in the
resulting state under the derived slug with exactly the returned
descriptor; and if it was already registered beforehand, descriptor and
state are unchanged. -/
theorem createRepo_post (env : CreateEnv) (owner name : String) (st0 : GHState)
    (r : GitHubRepo) (st1 : GHState)
    (h : (createRepo env owner name st0).2 = Except.ok (r, st1)) :
    lookupRepo st1 (getSlug name) = some r ∧
    (∀ r0, lookupRepo st0 (getSlug name) = some r0 → r = r0 ∧ st1 = st0) := by
  obtain ⟨b⟩ := env
  cases hlk : lookupRepo st0 (getSlug name) with
  | some r0 =>
    cases b <;> simp [createRepo, hlk] at h
    all_goals
      obtain ⟨hr, hst⟩ := h
      subst hr
      subst hst
      refine ⟨hlk, fun r1 h1 => ?_⟩
      injection h1 with h1
      exact ⟨h1, rfl⟩
  | none =>
    cases b <;> simp [createRepo, hlk] at h
    all_goals
      obtain ⟨hr, hst⟩ := h
      subst hr
      subst hst
      refine ⟨lookupRepo_cons_self _ _ _, fun r1 h1 => ?_⟩
      exact absurd h1 (by simp)

/-- C9: Repository creation is idempotent: a successful `createRepo`
leaves the remote in a state where a repeated call (with either behaviour
of the flaky existence check) returns the very same descriptor without
error and without changing the state — in particular without issuing a
second successful creation; and when the target already exists, the
existing descriptor is returned with the state unchanged. -/
theorem createRepo_idempotent (env1 env2 : CreateEnv) (owner name : String)
    (st0 : GHState) (r : GitHubRepo) (st1 : GHState)
    (h1 : (createRepo env1 owner name st0).2 = Except.ok (r, st1)) :
    (createRepo env2 owner name st1).2 = Except.ok (r, st1) ∧
    (∀ r0, lookupRepo st0 (getSlug name) = some r0 → r = r0 ∧ st1 = st0) := by
  obtain ⟨hpost, hpre⟩ := createRepo_post env1 owner name st0 r st1 h1
  refine ⟨?_, hpre⟩
  obtain ⟨b⟩ := env2
  cases b <;> simp [createRepo, hpost]

/-- Witness for C9: creating `My App` on an empty account and calling
`createRepo` again returns the same descriptor and state. -/
theorem createRepo_idempotent_witness :
    (createRepo ⟨false⟩ "octo" "My App"
        [("my-app", mkRepo "octo" "my-app")]).2 =
      Except.ok (mkRepo "octo" "my-app", [("my-app", mkRepo "octo" "my-app")]) :=
  (createRepo_idempotent ⟨true⟩ ⟨false⟩ "octo" "My App" [] (mkRepo "octo" "my-app")
    [("my-app", mkRepo "octo" "my-app")] rfl).1

/-! ## The publish pipeline never partially publishes (C1) -/

theorem blobPhase_ok_iff (env : PushEnv) : ∀ fs : List String,
    (blobPhase env fs).2 = Except.ok () ↔ ∀ p ∈ fs, env.blobOk p = true
  | [] => by simp [blobPhase]
  | f :: rest => by
    by_cases hf : env.blobOk f = true <;>
      simp [blobPhase, hf, blobPhase_ok_iff env rest]

theorem blobPhase_calls (env : PushEnv) : ∀ fs : List String,
    ∀ c ∈ (blobPhase env fs).1, ∃ p, c = PushCall.createBlob p
  | [] => by simp [blobPhase]
  | f :: rest => by
    by_cases hf : env.blobOk f = true <;>
      simp only [blobPhase, hf, if_true, if_false, Bool.false_eq_true] <;>
      intro c hc
    · rcases List.mem_cons.mp hc with h | h
      · exact ⟨f, h⟩
      · exact blobPhase_calls env rest c h
    · exact ⟨f, by simpa using hc⟩

theorem refAttempts_calls (env : PushEnv) : ∀ as : List Nat,
    ∀ c ∈ (refAttempts env as).1, ∃ a, c = PushCall.getRef a
  | [] => by simp [refAttempts]
  | a :: rest => by
    by_cases ha : env.refOk a = true <;>
      simp only [refAttempts, ha, if_true, if_false, Bool.false_eq_true] <;>
      intro c hc
    · exact ⟨a, by simpa using hc⟩
    · rcases List.mem_cons.mp hc with h | h
      · exact ⟨a, h⟩
      · exact refAttempts_calls env rest c h

/-- C1: In the publish pipeline, if the blob upload fails for any
manifest entry the run ends in an error and no tree-create, commit-create
or ref-update call appears in the trace; conversely a tree, commit or
ref-update call can only appear when every manifest entry's blob upload
succeeded (the trace built by `pushCode` places them after all blob
calls). -/
theorem pushCode_no_partial_publish (env : PushEnv) (files : List String) :
    ((∃ p ∈ files, env.blobOk p = false) →
      (∃ e, (pushCode env files).2 = Except.error e) ∧
      PushCall.createTree ∉ (pushCode env files).1 ∧
      PushCall.createCommit ∉ (pushCode env files).1 ∧
      PushCall.updateRef ∉ (pushCode env files).1) ∧
    ((PushCall.createTree ∈ (pushCode env files).1 ∨
      PushCall.createCommit ∈ (pushCode env files).1 ∨
      PushCall.updateRef ∈ (pushCode env files).1) →
      ∀ p ∈ files, env.blobOk p = true) := by
  have hre := refAttempts_calls env [0, 1, 2]
  have hbl := blobPhase_calls env files
  by_cases href : (refAttempts env [0, 1, 2]).2 = true
  · cases hblob : (blobPhase env files).2 with
    | error p =>
      simp only [pushCode, href, if_true, hblob]
      constructor
      · intro _
        refine ⟨⟨PushErr.blobFailed p, rfl⟩, ?_, ?_, ?_⟩ <;>
          · intro hc
            rcases List.mem_append.mp hc with h | h
            · rcases hre _ h with ⟨a, ha⟩
              simp at ha
            · rcases hbl _ h with ⟨q, hq⟩
              simp at hq
      · intro hmem
        exfalso
        rcases hmem with h | h | h <;>
          rcases List.mem_append.mp h with h' | h' <;>
          first
          | (rcases hre _ h' with ⟨a, ha⟩; simp at ha)
          | (rcases hbl _ h' with ⟨q, hq⟩; simp at hq)
    | ok u =>
      cases u
      have hall : ∀ p ∈ files, env.blobOk p = true := (blobPhase_ok_iff env files).mp hblob
      constructor
      · rintro ⟨p, hp, hfail⟩
        rw [hall p hp] at hfail
        exact absurd hfail (by simp)
      · intro _
        exact hall
  · simp only [pushCode, href, if_false, Bool.false_eq_true]
    constructor
    · intro _
      refine ⟨⟨PushErr.repoNotReady, rfl⟩, ?_, ?_, ?_⟩ <;>
        · intro hc
          rcases hre _ hc with ⟨a, ha⟩
          simp at ha
    · intro hmem
      exfalso
      rcases hmem with h | h | h <;>
        · rcases hre _ h with ⟨a, ha⟩
          simp at ha

/-- Witness for C1: with every blob upload failing, publishing the fixed
manifest raises and performs no tree, commit or ref-update call. -/
theorem pushCode_no_partial_publish_witness :
    (∃ e, (pushCode
        { refOk := fun _ => true, blobOk := fun _ => false,
          treeOk := true, commitOk := true, updateOk := true } manifestPaths).2 =
        Except.error e) ∧
    PushCall.createTree ∉ (pushCode
        { refOk := fun _ => true, blobOk := fun _ => false,
          treeOk := true, commitOk := true, updateOk := true } manifestPaths).1 ∧
    PushCall.createCommit ∉ (pushCode
        { refOk := fun _ => true, blobOk := fun _ => false,
          treeOk := true, commitOk := true, updateOk := true } manifestPaths).1 ∧
    PushCall.updateRef ∉ (pushCode
        { refOk := fun _ => true, blobOk := fun _ => false,
          treeOk := true, commitOk := true, updateOk := true } manifestPaths).1 :=
  (pushCode_no_partial_publish _ manifestPaths).1
    ⟨"App.js", by simp [manifestPaths], rfl⟩

/-! ## Orchestrator short-circuit (C6) -/

theorem genLoop_short_circuit : ∀ (ps : List GProvider) (k : Nat) (hk : k < ps.length),
    acceptedOutcome (ps.get ⟨k, hk⟩).outcome = true →
    (∀ j (hj : j < k), acceptedOutcome (ps.get ⟨j, Nat.lt_trans hj hk⟩).outcome = false) →
    ∃ c, (ps.get ⟨k, hk⟩).outcome = GOutcome.reply c ∧
      (genLoop ps).1 = (ps.take (k + 1)).map GProvider.name ∧
      (genLoop ps).2.2 = some c
  | [], k, hk, _, _ => absurd hk (by simp)
  | p :: rest, 0, hk, hacc, _ => by
    have hacc : acceptedOutcome p.outcome = true := hacc
    cases hpo : p.outcome with
    | crash m =>
      rw [hpo] at hacc
      simp [acceptedOutcome] at hacc
    | reply c =>
      rw [hpo] at hacc
      rw [acceptedOutcome, Bool.and_eq_true] at hacc
      have h1 : 500 < c.length := by simpa using hacc.1
      have h2 : ¬(lineCount c < 200) := by simpa using hacc.2
      exact ⟨c, by simp [hpo], by simp [genLoop, hpo, h1, h2], by simp [genLoop, hpo, h1, h2]⟩
  | p :: rest, k + 1, hk, hacc, hbef => by
    have hk' : k < rest.length := by simpa using hk
    have hacc' : acceptedOutcome (rest.get ⟨k, hk'⟩).outcome = true := by
      simpa using hacc
    have hbef' : ∀ j (hj : j < k),
        acceptedOutcome (rest.get ⟨j, Nat.lt_trans hj hk'⟩).outcome = false := by
      intro j hj
      have := hbef (j + 1) (by omega)
      simpa using this
    obtain ⟨c, hc, htr, hres⟩ := genLoop_short_circuit rest k hk' hacc' hbef'
    have hp0 : acceptedOutcome p.outcome = false := by
      have := hbef 0 (by omega)
      simpa using this
    have hstep : (genLoop (p :: rest)).1 = p.name :: (genLoop rest).1 ∧
        (genLoop (p :: rest)).2.2 = (genLoop rest).2.2 := by
      cases hpo : p.outcome with
      | crash m => simp [genLoop, hpo]
      | reply cc =>
        rw [hpo, acceptedOutcome] at hp0
        by_cases hlen : 500 < cc.length
        · have hline : lineCount cc < 200 := by simpa [hlen] using hp0
          simp [genLoop, hpo, hlen, hline]
        · simp [genLoop, hpo, hlen]
    refine ⟨c, by simpa using hc, ?_, ?_⟩
    · rw [hstep.1, htr]
      simp
    · rw [hstep.2, hres]

/-- C6: Within one request the orchestrator invokes providers strictly
sequentially in list order and stops at the first accepted result: if the
provider at position `k` (0-based) is the first whose outcome passes the
acceptance check, the invocation trace is exactly the first `k + 1`
provider names — providers `k+2..N` are never invoked — and the accepted
reply is returned. -/
theorem generateCode_short_circuit (ps : List GProvider) (k : Nat) (hk : k < ps.length)
    (hacc : acceptedOutcome (ps.get ⟨k, hk⟩).outcome = true)
    (hbef : ∀ j (hj : j < k), acceptedOutcome (ps.get ⟨j, Nat.lt_trans hj hk⟩).outcome = false) :
    genTrace ps = (ps.take (k + 1)).map GProvider.name ∧
    ∃ c, (ps.get ⟨k, hk⟩).outcome = GOutcome.reply c ∧ generateCode ps = Except.ok c := by
  obtain ⟨c, hc, htr, hres⟩ := genLoop_short_circuit ps k hk hacc hbef
  refine ⟨htr, c, hc, ?_⟩
  have hne : ps.isEmpty = false := by
    cases ps
    · simp at hk
    · rfl
  simp [generateCode, hne, hres]

set_option maxRecDepth 6000 in
/-- Witness for C6: of two providers where the first throws and the second
returns an acceptable reply, both are invoked, in order, and the second
reply is returned. -/
theorem generateCode_short_circuit_witness :
    genTrace sampleProviders = (sampleProviders.take (1 + 1)).map GProvider.name ∧
    ∃ c, (sampleProviders.get ⟨1, by decide⟩).outcome = GOutcome.reply c ∧
      generateCode sampleProviders = Except.ok c :=
  generateCode_short_circuit sampleProviders 1 (by decide) (by decide) (by decide)

/-! ## Aggregate-error classification (C5) -/

/-- C5 counterexample: With one backend failing with an auth-class
message (`invalid`) and another with a rate-limit message, the synthesized
error is the rate-limit one: the code checks rate-limit markers before
auth markers, so the claimed priority AuthInvalid over TransientRateLimit
does not hold. -/
theorem aggregate_error_prefers_rate_limit :
    generateCode
      [{ name := "Gemini",
         outcome := GOutcome.crash "Gemini API key is invalid. Please get a new key from ai.google.dev" },
       { name := "Groq", outcome := GOutcome.crash "Groq rate limit hit" }] =
      Except.error (GenFailure.aggregate GenErrClass.rateLimit) ∧
    GenErrClass.rateLimit ≠ GenErrClass.auth := by
  exact ⟨rfl, by simp⟩

theorem containsSub_of_leadsWith {pat l : List Char} (h : leadsWith pat l = true) :
    containsSub pat l = true := by
  cases l <;> simp [containsSub, h]

theorem leadsWith_append_cons {pat : List Char} {c : Char} (hno : ∀ a ∈ pat, a ≠ c) :
    ∀ {xs ys : List Char}, leadsWith pat (xs ++ c :: ys) = true → leadsWith pat xs = true := by
  induction pat with
  | nil => intro xs ys _; rfl
  | cons p ps ih =>
    intro xs ys h
    cases xs with
    | nil =>
      rw [List.nil_append, leadsWith, Bool.and_eq_true] at h
      have hp : p = c := by simpa using h.1
      exact absurd hp (hno p (List.mem_cons_self _ _))
    | cons x xt =>
      rw [List.cons_append, leadsWith, Bool.and_eq_true] at h
      rw [leadsWith, Bool.and_eq_true]
      exact ⟨h.1, ih (fun a ha => hno a (List.mem_cons_of_mem p ha)) h.2⟩

theorem containsSub_append_cons {pat : List Char} {c : Char}
    (hne : pat ≠ []) (hno : ∀ a ∈ pat, a ≠ c) :
    ∀ {xs ys : List Char}, containsSub pat (xs ++ c :: ys) = true →
      containsSub pat xs = true ∨ containsSub pat ys = true := by
  intro xs
  induction xs with
  | nil =>
    intro ys h
    rw [List.nil_append, containsSub] at h
    rcases (Bool.or_eq_true _ _).mp h with h1 | h1
    · cases pat with
      | nil => exact absurd rfl hne
      | cons p ps =>
        rw [leadsWith, Bool.and_eq_true] at h1
        have hp : p = c := by simpa using h1.1
        exact absurd hp (hno p (List.mem_cons_self _ _))
    · exact Or.inr h1
  | cons x xt ih =>
    intro ys h
    rw [List.cons_append, containsSub] at h
    rcases (Bool.or_eq_true _ _).mp h with h1 | h1
    · left
      rw [← List.cons_append] at h1
      exact containsSub_of_leadsWith (leadsWith_append_cons hno h1)
    · rcases ih h1 with h2 | h2
      · left
        rw [containsSub]
        exact (Bool.or_eq_true _ _).mpr (Or.inr h2)
      · exact Or.inr h2

theorem containsSub_joinNl {pat : List Char} (hne : pat ≠ [])
    (hnl : ∀ a ∈ pat, a ≠ '\n') :
    ∀ ls : List (List Char), (∀ l ∈ ls, containsSub pat l = false) →
    containsSub pat (joinNlL ls) = false
  | [] => fun _ => by
    cases pat with
    | nil => exact absurd rfl hne
    | cons p ps => simp [joinNlL, containsSub, leadsWith]
  | [m] => fun h => h m (List.mem_cons_self _ _)
  | m :: m2 :: rest => fun h => by
    show containsSub pat (m ++ '\n' :: joinNlL (m2 :: rest)) = false
    by_contra hcon
    rw [Bool.not_eq_false] at hcon
    rcases containsSub_append_cons hne hnl hcon with h1 | h1
    · rw [h m (List.mem_cons_self _ _)] at h1
      exact absurd h1 (by simp)
    · have hrest := containsSub_joinNl hne hnl (m2 :: rest)
        (fun l hl => h l (List.mem_cons_of_mem m hl))
      rw [hrest] at h1
      exact absurd h1 (by simp)

theorem hasAnyMarker_summary_false (errs : List String) (ms : List String)
    (hms : ∀ m ∈ ms, m.data ≠ [] ∧ ∀ a ∈ m.data, a ≠ '\n')
    (herr : ∀ e ∈ errs, ∀ m ∈ ms, containsSub m.data e.data = false) :
    hasAnyMarker (errorSummary errs) ms = false := by
  unfold hasAnyMarker errorSummary
  rw [List.any_eq_false]
  intro m hm
  have hj := containsSub_joinNl (hms m hm).1 (hms m hm).2 (errs.map String.data) ?_
  · simp [hj]
  · intro l hl
    rcases List.mem_map.mp hl with ⟨e, he, rfl⟩
    exact herr e he m hm

theorem classifyErrors_generic (errs : List String)
    (hfree : ∀ m ∈ errs, markerFree m = true) :
    classifyErrors errs = GenErrClass.generic := by
  have hget : ∀ e ∈ errs, ∀ ms : List String, hasAnyMarker e.data ms = false →
      ∀ m ∈ ms, containsSub m.data e.data = false := by
    intro e _ ms hms m hm
    rw [hasAnyMarker, List.any_eq_false] at hms
    simpa using hms m hm
  have hsplit : ∀ e ∈ errs, hasAnyMarker e.data rateMarkers = false ∧
      hasAnyMarker e.data authMarkers = false := by
    intro e he
    have := hfree e he
    rw [markerFree, Bool.not_eq_true', Bool.or_eq_false_iff] at this
    exact this
  have hrate : hasAnyMarker (errorSummary errs) rateMarkers = false := by
    apply hasAnyMarker_summary_false
    · decide
    · intro e he m hm
      exact hget e he rateMarkers (hsplit e he).1 m hm
  have hauth : hasAnyMarker (errorSummary errs) authMarkers = false := by
    apply hasAnyMarker_summary_false
    · decide
    · intro e he m hm
      exact hget e he authMarkers (hsplit e he).2 m hm
  simp [classifyErrors, hrate, hauth]

set_option maxHeartbeats 4000000 in
set_option maxRecDepth 4000 in
theorem tooLittleMsg_markerFree :
    ∀ name ∈ ["Gemini", "Groq", "HuggingFace"], ∀ n, n < 200 →
      markerFree (tooLittleMsg name n) = true := by decide

theorem insufficientMsg_markerFree :
    ∀ name ∈ ["Gemini", "Groq", "HuggingFace"],
      markerFree (insufficientMsg name) = true := by decide

theorem genLoop_validation : ∀ ps : List GProvider,
    (∀ p ∈ ps, (p.name = "Gemini" ∨ p.name = "Groq" ∨ p.name = "HuggingFace") ∧
      validationReject p.outcome = true) →
    (genLoop ps).2.2 = none ∧ ∀ m ∈ (genLoop ps).2.1, markerFree m = true
  | [] => fun _ => ⟨rfl, by simp [genLoop]⟩
  | p :: rest => fun h => by
    obtain ⟨hrec1, hrec2⟩ :=
      genLoop_validation rest (fun q hq => h q (List.mem_cons_of_mem p hq))
    obtain ⟨hname, hval⟩ := h p (List.mem_cons_self p rest)
    have hmsgfree : ∀ nm, (nm = "Gemini" ∨ nm = "Groq" ∨ nm = "HuggingFace") →
        ∀ n, n < 200 → markerFree (tooLittleMsg nm n) = true := by
      intro nm hnm n hn
      rcases hnm with h1 | h1 | h1 <;> rw [h1] <;>
        exact tooLittleMsg_markerFree _ (by simp) n hn
    have hinsfree : ∀ nm, (nm = "Gemini" ∨ nm = "Groq" ∨ nm = "HuggingFace") →
        markerFree (insufficientMsg nm) = true := by
      intro nm hnm
      rcases hnm with h1 | h1 | h1 <;> rw [h1] <;>
        exact insufficientMsg_markerFree _ (by simp)
    cases hpo : p.outcome with
    | crash m =>
      rw [hpo] at hval
      simp [validationReject] at hval
    | reply c =>
      rw [hpo, validationReject] at hval
      by_cases hlen : 500 < c.length
      · have hline : lineCount c < 200 := by
          rcases (Bool.or_eq_true _ _).mp hval with h1 | h1
          · exact absurd (by simpa using h1 : c.length ≤ 500) (by omega)
          · simpa using h1
        refine ⟨by simp [genLoop, hpo, hlen, hline, hrec1], ?_⟩
        intro m hm
        simp only [genLoop, hpo, hlen, hline, if_true, if_pos] at hm
        rcases List.mem_cons.mp hm with h1 | h1
        · exact h1 ▸ hmsgfree p.name hname (lineCount c) hline
        · exact hrec2 m h1
      · refine ⟨by simp [genLoop, hpo, hlen, hrec1], ?_⟩
        intro m hm
        simp only [genLoop, hpo, hlen, if_false] at hm
        rcases List.mem_cons.mp hm with h1 | h1
        · exact h1 ▸ hinsfree p.name hname
        · exact hrec2 m h1

/-- C5 amended: The aggregate-error priority implemented by
`generateCode` is TransientRateLimit over the combined AuthInvalid or
PermissionDenied class (one marker set covering `invalid`, `401`, `403`)
over generic — the counterexample above shows a rate-limit marker wins
over an auth marker; the claim's validation-failure instance is right: if
every backend failed only with too-short-output validation rejections, the
synthesized error is the generic class, not the rate-limit or auth one. -/
theorem aggregate_error_generic_on_validation_failures (ps : List GProvider)
    (hne : ps ≠ [])
    (hp : ∀ p ∈ ps, (p.name = "Gemini" ∨ p.name = "Groq" ∨ p.name = "HuggingFace") ∧
      validationReject p.outcome = true) :
    generateCode ps = Except.error (GenFailure.aggregate GenErrClass.generic) := by
  obtain ⟨hnone, hfree⟩ := genLoop_validation ps hp
  have hempty : ps.isEmpty = false := by
    cases ps
    · exact absurd rfl hne
    · rfl
  simp [generateCode, hempty, hnone, classifyErrors_generic _ hfree]

/-- Witness for C5: three backends all rejected for too-short output yield
the generic aggregate error. -/
theorem aggregate_error_generic_witness :
    generateCode
      [{ name := "Gemini", outcome := GOutcome.reply "short" },
       { name := "Groq", outcome := GOutcome.reply "" },
       { name := "HuggingFace", outcome := GOutcome.reply "also short" }] =
      Except.error (GenFailure.aggregate GenErrClass.generic) :=
  aggregate_error_generic_on_validation_failures _ (by simp) (by decide)

/-! ## Clarification service (C7, C8) -/

/-- C7 counterexample: With no API key configured, the provider list is
empty and `generateClarifications` throws its configuration error instead
of returning the default list, so the service does not "never raise". -/
theorem generateClarifications_throws_without_keys :
    providerNamesOf
      { githubToken := "", githubUsername := "", expoUsername := "", expoToken := "",
        llmProvider := "gemini", llmApiKey := "", geminiApiKey := "", groqApiKey := "",
        huggingfaceApiKey := "" } = [] ∧
    generateClarifications (fun _ => none) "a notes app" [] = Except.error noKeysMsg :=
  ⟨rfl, rfl⟩

theorem clarifyLoop_all_rejected (parse : String → Option JVal) (prompt : String) :
    ∀ ps : List CProvider, (∀ p ∈ ps, tryClarifyProvider parse p.resp = none) →
    clarifyLoop parse prompt ps = getDefaultClarifications prompt
  | [] => fun _ => rfl
  | p :: rest => fun h => by
    have h0 := h p (List.mem_cons_self _ _)
    simp [clarifyLoop, h0,
      clarifyLoop_all_rejected parse prompt rest
        (fun q hq => h q (List.mem_cons_of_mem p hq))]

/-- C7 amended: When at least one backend is configured, the
clarification service never raises: if every configured backend fails or
returns unusable output, it returns the fixed hardcoded default list of
exactly three question/options pairs.  (With zero backends configured it
raises a configuration error — the counterexample above.) -/
theorem generateClarifications_defaults_on_failure (parse : String → Option JVal)
    (prompt : String) (ps : List CProvider) (hne : ps ≠ [])
    (hfail : ∀ p ∈ ps, tryClarifyProvider parse p.resp = none) :
    generateClarifications parse prompt ps = Except.ok (getDefaultClarifications prompt) ∧
    (getDefaultClarifications prompt).length = 3 := by
  have hempty : ps.isEmpty = false := by
    cases ps
    · exact absurd rfl hne
    · rfl
  refine ⟨?_, rfl⟩
  simp [generateClarifications, hempty, clarifyLoop_all_rejected parse prompt ps hfail]

/-- Witness for C7: one configured backend returning non-JSON prose — the
service returns the fixed three-question default list. -/
theorem generateClarifications_defaults_witness :
    generateClarifications (fun _ => none) "a notes app"
      [{ name := "Gemini", resp := CResp.reply "Sure, here are my questions." }] =
      Except.ok (getDefaultClarifications "a notes app") ∧
    (getDefaultClarifications "a notes app").length = 3 :=
  generateClarifications_defaults_on_failure _ _ _ (by simp) (by decide)

/-- C8 counterexample: The acceptance check inspects only the first
element and an empty `options` array is truthy, so a parsed array whose
second element exposes neither `question` nor `options` and whose first
element has an empty options list is accepted — not passed over. -/
theorem clarify_accepts_defective_array :
    acceptClarifications defectiveClarifyArray =
      some [{ question := "What data matters?", options := [] },
            { question := "undefined", options := [] }] ∧
    generateClarifications (fun s => if s = "[stub]" then some defectiveClarifyArray else none)
      "p" [{ name := "Gemini", resp := CResp.reply "[stub]" }] =
      Except.ok [{ question := "What data matters?", options := [] },
                 { question := "undefined", options := [] }] :=
  ⟨rfl, rfl⟩

theorem mapQ_isSome : ∀ x : JVal, (mapQ x).isSome = elemMappable x
  | JVal.jnull => rfl
  | JVal.jbool b => rfl
  | JVal.jnum n => rfl
  | JVal.jstr s => rfl
  | JVal.jarr es => rfl
  | JVal.jobj fs => by
    rw [mapQ, elemMappable] <;> try (intro hcc; exact JVal.noConfusion hcc)
    cases hopt : getField (JVal.jobj fs) optionsKey with
    | none => rfl
    | some v =>
      by_cases htv : truthy v = true
      · simp only [htv, if_true, Bool.not_true, Bool.false_or]
        cases v <;> simp
      · have hfv : truthy v = false := by simpa using htv
        simp [hfv]

theorem mapThrow_isSome : ∀ xs : List JVal, (mapThrow xs).isSome = xs.all elemMappable
  | [] => rfl
  | x :: rest => by
    rw [mapThrow, List.all_cons, ← mapQ_isSome x, ← mapThrow_isSome rest]
    cases mapQ x with
    | none => simp
    | some q =>
      cases mapThrow rest with
      | none => simp
      | some qs => simp

theorem firstElemOk_spec : ∀ x : JVal, firstElemOk x =
    (nonNull x &&
      (truthyOpt (getField x questionKey) && truthyOpt (getField x optionsKey)))
  | JVal.jnull => rfl
  | JVal.jbool b => by simp [firstElemOk, nonNull]
  | JVal.jnum n => by simp [firstElemOk, nonNull]
  | JVal.jstr s => by simp [firstElemOk, nonNull]
  | JVal.jarr es => by simp [firstElemOk, nonNull]
  | JVal.jobj fs => by simp [firstElemOk, nonNull]

/-- C8 amended: The parser accepts a backend response exactly when the
parsed value is an array of length at least two whose first element is a
non-null value with truthy `question` and `options` members (an empty
options array counts as truthy) and whose first four elements are all
mappable without a thrown member access; elements past the first are
never shape-checked beyond that. -/
theorem clarify_acceptance_characterisation (v : JVal) :
    (acceptClarifications v).isSome = clarifyAcceptSpec v := by
  cases v with
  | jnull => rfl
  | jbool b => rfl
  | jnum n => rfl
  | jstr s => rfl
  | jobj fs => rfl
  | jarr xs =>
    cases xs with
    | nil => rfl
    | cons x0 rest =>
      rw [acceptClarifications, clarifyAcceptSpec]
      by_cases hlen : 2 ≤ (x0 :: rest).length
      · rw [if_pos hlen]
        show (if firstElemOk x0 then mapThrow ((x0 :: rest).take 4) else none).isSome = _
        by_cases hok : firstElemOk x0 = true
        · rw [if_pos hok, mapThrow_isSome]
          have hspec := (firstElemOk_spec x0).symm.trans hok
          rw [Bool.and_eq_true] at hspec
          obtain ⟨hnn, hqo⟩ := hspec
          rw [Bool.and_eq_true] at hqo
          obtain ⟨hq, ho⟩ := hqo
          have hd : decide (2 ≤ (x0 :: rest).length) = true := decide_eq_true hlen
          rw [hd, hnn, hq, ho]
          simp
        · rw [if_neg hok]
          have hfb : firstElemOk x0 = false := by simpa using hok
          have hspec := (firstElemOk_spec x0).symm.trans hfb
          rcases Bool.and_eq_false_iff.mp hspec with h1 | h1
          · simp [h1]
          · rcases Bool.and_eq_false_iff.mp h1 with h2 | h2 <;> simp [h2]
      · rw [if_neg hlen]
        have hd : decide (2 ≤ (x0 :: rest).length) = false := by simpa using hlen
        rw [hd]
        rfl

/-! ## Repair engine: literal preservation (C2) -/

/-- C2 counterexample: The repair pass rewrites inside a double-quoted
span: the three-character string literal containing a trailing comma
before a bracket loses the comma, so quoted content is not preserved and
a literal containing a trailing comma is not returned byte-identical.
(The input is the five characters quote, comma, bracket, quote.) -/
theorem repair_mutates_string_literal :
    fixCommonSyntaxErrors "\",]\"" = "\"]\"" ∧ "\"]\"" ≠ "\",]\"" :=
  ⟨rfl, by decide⟩

/-- C2 amended: Only the bracket-balancing scan is guaranteed to
leave existing characters — in particular quoted spans — untouched (it
skips quoted and template spans and only ever appends closers at the
end); the earlier textual regex passes can rewrite inside string
literals, as the counterexample shows.  An input on which none of the
textual passes fires, no counter ends positive, and the export passes are
idle — such as a bare string literal containing an unmatched bracket —
is returned byte-identical. -/
theorem repair_identity_of_idle_passes (s : String)
    (h1 : stripTrailingCommas s.data = s.data)
    (h2 : stripUnitSuffixes s.data = s.data)
    (h3 : fixPercentValues s.data = s.data)
    (h4 : stripNumberWords s.data = s.data)
    (h5 : quoteDigitKeys '{' s.data = s.data)
    (h6 : quoteDigitKeys ',' s.data = s.data)
    (h7 : stripCommentNonAscii s.data = s.data)
    (h8 : closersFor (scanList scanInit s.data) = [])
    (h9 : exportTruncate s.data = s.data)
    (h10 : exportEnsure s.data = s.data) :
    fixCommonSyntaxErrors s = s := by
  show String.mk (fixCommonSyntaxErrorsL s.data) = s
  rw [fixCommonSyntaxErrorsL, preBalance, h1, h2, h3, fixQuotedPercents, h4, h5, h6, h7,
    balanceBrackets, h8, List.append_nil, h9, h10]

/-- Witness for C2: a double-quoted string literal holding one unmatched
opening bracket is returned byte-identical. -/
theorem repair_identity_witness : fixCommonSyntaxErrors "\"[\"" = "\"[\"" :=
  repair_identity_of_idle_passes _ rfl rfl rfl rfl rfl rfl rfl rfl rfl rfl

/-! ## Repair engine: bracket balance (C3) -/

/-- C3 counterexample: An input with more closing than opening braces
is NOT rebalanced: the balancer only appends closers for positive
counters, so a lone closing brace survives and the output's net brace
count outside quoted spans is −1, not 0. -/
theorem repair_leaves_excess_closers :
    fixCommonSyntaxErrors "\x7d" = "\x7d" ∧
    (scanList scanInit (fixCommonSyntaxErrors "\x7d").data).brace ≠ 0 :=
  ⟨rfl, by decide⟩

theorem data_mk (l : List Char) : (String.mk l).data = l := rfl

theorem scanList_cons (st : ScanSt) (c : Char) (l : List Char) :
    scanList st (c :: l) = scanList (scanStep st c) l := rfl

theorem scanList_append (st : ScanSt) (a b : List Char) :
    scanList st (a ++ b) = scanList (scanList st a) b :=
  List.foldl_append _ _ _ _

theorem scanStep_plain (st : ScanSt) (c : Char) (hm : st.mode = ScanMode.normal)
    (hpl : scanPlain c = true) :
    scanStep st c = { st with prev := some c } := by
  rw [scanPlain, Bool.not_eq_true', Bool.or_eq_false_iff, Bool.or_eq_false_iff,
    Bool.or_eq_false_iff, Bool.or_eq_false_iff, Bool.or_eq_false_iff, Bool.or_eq_false_iff,
    Bool.or_eq_false_iff, Bool.or_eq_false_iff] at hpl
  obtain ⟨⟨⟨⟨⟨⟨⟨⟨n1, n2⟩, n3⟩, n4⟩, n5⟩, n6⟩, n7⟩, n8⟩, n9⟩ := hpl
  simp only [decide_eq_false_iff_not] at n1 n2 n3 n4 n5 n6 n7 n8 n9
  unfold scanStep
  rw [hm]
  rw [if_neg (not_or.mpr ⟨n1, n2⟩), if_neg n3, if_neg n4, if_neg n5, if_neg n6,
    if_neg n7, if_neg n8, if_neg n9]
  show ScanSt.mk st.mode st.brace st.paren st.brack (some c) = _
  rw [hm]

theorem scanList_plain : ∀ (l : List Char) (st : ScanSt), st.mode = ScanMode.normal →
    (∀ c ∈ l, scanPlain c = true) →
    (scanList st l).mode = ScanMode.normal ∧ (scanList st l).brace = st.brace ∧
    (scanList st l).paren = st.paren ∧ (scanList st l).brack = st.brack
  | [], st, hm, _ => ⟨hm, rfl, rfl, rfl⟩
  | c :: rest, st, hm, hall => by
    rw [scanList_cons, scanStep_plain st c hm (hall c (List.mem_cons_self _ _))]
    exact scanList_plain rest { st with prev := some c } hm
      (fun d hd => hall d (List.mem_cons_of_mem c hd))

theorem scanStep_closeBrace (st : ScanSt) (hm : st.mode = ScanMode.normal) :
    scanStep st '}' = { st with brace := st.brace - 1, prev := some '}' } := by
  unfold scanStep
  rw [hm]
  rw [if_neg (by decide : ¬('}' = Char.ofNat 34 ∨ '}' = Char.ofNat 39)),
    if_neg (by decide : ¬ '}' = backtick), if_neg (by decide : ¬ '}' = '{'),
    if_pos rfl]

theorem scanStep_closeParen (st : ScanSt) (hm : st.mode = ScanMode.normal) :
    scanStep st ')' = { st with paren := st.paren - 1, prev := some ')' } := by
  unfold scanStep
  rw [hm]
  rw [if_neg (by decide : ¬(')' = Char.ofNat 34 ∨ ')' = Char.ofNat 39)),
    if_neg (by decide : ¬ ')' = backtick), if_neg (by decide : ¬ ')' = '{'),
    if_neg (by decide : ¬ ')' = '}'), if_neg (by decide : ¬ ')' = '('),
    if_pos rfl]

theorem scanStep_closeBrack (st : ScanSt) (hm : st.mode = ScanMode.normal) :
    scanStep st ']' = { st with brack := st.brack - 1, prev := some ']' } := by
  unfold scanStep
  rw [hm]
  rw [if_neg (by decide : ¬(']' = Char.ofNat 34 ∨ ']' = Char.ofNat 39)),
    if_neg (by decide : ¬ ']' = backtick), if_neg (by decide : ¬ ']' = '{'),
    if_neg (by decide : ¬ ']' = '}'), if_neg (by decide : ¬ ']' = '('),
    if_neg (by decide : ¬ ']' = ')'), if_neg (by decide : ¬ ']' = '['),
    if_pos rfl]

theorem scanList_braceClosers : ∀ (n : Nat) (st : ScanSt), st.mode = ScanMode.normal →
    (scanList st (braceClosers n)).mode = ScanMode.normal ∧
    (scanList st (braceClosers n)).brace = st.brace - n ∧
    (scanList st (braceClosers n)).paren = st.paren ∧
    (scanList st (braceClosers n)).brack = st.brack
  | 0, st, hm => ⟨hm, by simp [braceClosers, scanList], rfl, rfl⟩
  | n + 1, st, hm => by
    rw [braceClosers, scanList_cons, scanList_cons]
    have hA := scanStep_plain st '\n' hm (by decide)
    have hm1 : (scanStep st '\n').mode = ScanMode.normal := by rw [hA]; exact hm
    have hb1 : (scanStep st '\n').brace = st.brace := by rw [hA]
    have hp1 : (scanStep st '\n').paren = st.paren := by rw [hA]
    have hk1 : (scanStep st '\n').brack = st.brack := by rw [hA]
    have hC := scanStep_closeBrace (scanStep st '\n') hm1
    have hm2 : (scanStep (scanStep st '\n') '}').mode = ScanMode.normal := by
      rw [hC]; exact hm1
    have hb2 : (scanStep (scanStep st '\n') '}').brace = st.brace - 1 := by
      rw [hC]; show (scanStep st '\n').brace - 1 = st.brace - 1; rw [hb1]
    have hp2 : (scanStep (scanStep st '\n') '}').paren = st.paren := by
      rw [hC]; exact hp1
    have hk2 : (scanStep (scanStep st '\n') '}').brack = st.brack := by
      rw [hC]; exact hk1
    have ih := scanList_braceClosers n (scanStep (scanStep st '\n') '}') hm2
    refine ⟨ih.1, ?_, ?_, ?_⟩
    · rw [ih.2.1, hb2]
      push_cast
      ring
    · rw [ih.2.2.1, hp2]
    · rw [ih.2.2.2, hk2]

theorem scanList_closeParens : ∀ (n : Nat) (st : ScanSt), st.mode = ScanMode.normal →
    (scanList st (List.replicate n ')')).mode = ScanMode.normal ∧
    (scanList st (List.replicate n ')')).brace = st.brace ∧
    (scanList st (List.replicate n ')')).paren = st.paren - n ∧
    (scanList st (List.replicate n ')')).brack = st.brack
  | 0, st, hm => ⟨hm, rfl, by simp [scanList], rfl⟩
  | n + 1, st, hm => by
    rw [List.replicate_succ, scanList_cons]
    have hC := scanStep_closeParen st hm
    have hm1 : (scanStep st ')').mode = ScanMode.normal := by rw [hC]; exact hm
    have hb1 : (scanStep st ')').brace = st.brace := by rw [hC]
    have hp1 : (scanStep st ')').paren = st.paren - 1 := by rw [hC]
    have hk1 : (scanStep st ')').brack = st.brack := by rw [hC]
    have ih := scanList_closeParens n (scanStep st ')') hm1
    refine ⟨ih.1, ?_, ?_, ?_⟩
    · rw [ih.2.1, hb1]
    · rw [ih.2.2.1, hp1]
      push_cast
      ring
    · rw [ih.2.2.2, hk1]

theorem scanList_closeBracks : ∀ (n : Nat) (st : ScanSt), st.mode = ScanMode.normal →
    (scanList st (List.replicate n ']')).mode = ScanMode.normal ∧
    (scanList st (List.replicate n ']')).brace = st.brace ∧
    (scanList st (List.replicate n ']')).paren = st.paren ∧
    (scanList st (List.replicate n ']')).brack = st.brack - n
  | 0, st, hm => ⟨hm, rfl, rfl, by simp [scanList]⟩
  | n + 1, st, hm => by
    rw [List.replicate_succ, scanList_cons]
    have hC := scanStep_closeBrack st hm
    have hm1 : (scanStep st ']').mode = ScanMode.normal := by rw [hC]; exact hm
    have hb1 : (scanStep st ']').brace = st.brace := by rw [hC]
    have hp1 : (scanStep st ']').paren = st.paren := by rw [hC]
    have hk1 : (scanStep st ']').brack = st.brack - 1 := by rw [hC]
    have ih := scanList_closeBracks n (scanStep st ']') hm1
    refine ⟨ih.1, ?_, ?_, ?_⟩
    · rw [ih.2.1, hb1]
    · rw [ih.2.2.1, hp1]
    · rw [ih.2.2.2, hk1]
      push_cast
      ring

/-- Scanning the balanced text: when the pre-balance scan ends in normal
mode with nonnegative counters, all three counters of the balanced text
scan are zero (and the mode is again normal). -/
theorem scanList_balanceBrackets (l : List Char)
    (hmode : (scanList scanInit l).mode = ScanMode.normal)
    (hb : 0 ≤ (scanList scanInit l).brace)
    (hp : 0 ≤ (scanList scanInit l).paren)
    (hk : 0 ≤ (scanList scanInit l).brack) :
    (scanList scanInit (balanceBrackets l)).mode = ScanMode.normal ∧
    (scanList scanInit (balanceBrackets l)).brace = 0 ∧
    (scanList scanInit (balanceBrackets l)).paren = 0 ∧
    (scanList scanInit (balanceBrackets l)).brack = 0 := by
  rw [balanceBrackets, scanList_append, closersFor]
  rw [List.append_assoc, scanList_append]
  set st0 := scanList scanInit l with hst0
  have h1 := scanList_braceClosers st0.brace.toNat st0 hmode
  rw [scanList_append]
  set st1 := scanList st0 (braceClosers st0.brace.toNat) with hst1
  have h2 := scanList_closeParens st0.paren.toNat st1 h1.1
  set st2 := scanList st1 (List.replicate st0.paren.toNat ')') with hst2
  have h3 := scanList_closeBracks st0.brack.toNat st2 h2.1
  refine ⟨h3.1, ?_, ?_, ?_⟩
  · rw [h3.2.1, h2.2.1, h1.2.1, Int.toNat_of_nonneg hb]
    ring
  · rw [h3.2.2.1, h2.2.2.1, h1.2.2.1, Int.toNat_of_nonneg hp]
    ring
  · rw [h3.2.2.2, h2.2.2.2, h1.2.2.2, Int.toNat_of_nonneg hk]
    ring

/-- C3 amended: The balancer only appends closers for counters that
end positive, so inputs with more closing than opening tokens stay
unbalanced (the counterexample above); when the scan of the text reaching
the balancer ends outside any quoted or template span with nonnegative
counters, and the export-truncation pass leaves the balanced text alone,
the final output has equal counts of each bracket pair outside
quoted/template spans (all three net scan counters are zero). -/
theorem repair_balances_nonneg_scan (s : String)
    (hmode : (scanList scanInit (preBalance s.data)).mode = ScanMode.normal)
    (hb : 0 ≤ (scanList scanInit (preBalance s.data)).brace)
    (hp : 0 ≤ (scanList scanInit (preBalance s.data)).paren)
    (hk : 0 ≤ (scanList scanInit (preBalance s.data)).brack)
    (htr : exportTruncate (balanceBrackets (preBalance s.data)) =
      balanceBrackets (preBalance s.data)) :
    (scanList scanInit (fixCommonSyntaxErrors s).data).brace = 0 ∧
    (scanList scanInit (fixCommonSyntaxErrors s).data).paren = 0 ∧
    (scanList scanInit (fixCommonSyntaxErrors s).data).brack = 0 := by
  have hbal := scanList_balanceBrackets (preBalance s.data) hmode hb hp hk
  rw [show fixCommonSyntaxErrors s = String.mk (fixCommonSyntaxErrorsL s.data) from rfl,
    data_mk, fixCommonSyntaxErrorsL, htr]
  unfold exportEnsure
  split
  · exact ⟨hbal.2.1, hbal.2.2.1, hbal.2.2.2⟩
  · split
    · rw [scanList_append]
      have hpl := scanList_plain appendLine
        (scanList scanInit (balanceBrackets (preBalance s.data))) hbal.1 (by decide)
      exact ⟨hpl.2.1.trans hbal.2.1, hpl.2.2.1.trans hbal.2.2.1,
        hpl.2.2.2.trans hbal.2.2.2⟩
    · exact ⟨hbal.2.1, hbal.2.2.1, hbal.2.2.2⟩

/-- Witness for C3: an unmatched opening parenthesis is closed and the
output scans balanced. -/
theorem repair_balances_witness :
    (scanList scanInit (fixCommonSyntaxErrors "(").data).brace = 0 ∧
    (scanList scanInit (fixCommonSyntaxErrors "(").data).paren = 0 ∧
    (scanList scanInit (fixCommonSyntaxErrors "(").data).brack = 0 :=
  repair_balances_nonneg_scan "(" rfl (by decide) (by decide) (by decide) rfl

/-! ## Sanitizer idempotence (C4) -/

/-- C4 counterexample: The sanitizer is not idempotent: on the input
`,,]` the trailing-comma pass removes one comma per run (the global regex
resumes after each replacement, so the newly adjacent `,]` survives to
the next run), hence a second sanitize changes the text again. -/
theorem sanitize_not_idempotent :
    cleanCodeResponse (cleanCodeResponse ",,]") ≠ cleanCodeResponse ",,]" := by decide

/-- C4 amended: The sanitizer is idempotent exactly on inputs whose
sanitized form is stable under each of its passes: if the fence strips,
the prefix and tail discards, the repair pass and the trim each leave
`cleanCodeResponse x` unchanged, then a second sanitize returns it
unchanged.  In general a second run can shrink the text further (see the
counterexample). -/
theorem cleanCodeResponse_idempotent_when_stable (x : String)
    (h1 : stripOpenFences codeFenceLangs (cleanCodeResponse x).data = (cleanCodeResponse x).data)
    (h2 : stripCloseFences (cleanCodeResponse x).data = (cleanCodeResponse x).data)
    (h3 : cutToImportReact (cleanCodeResponse x).data = (cleanCodeResponse x).data)
    (h4 : cutTail (cleanCodeResponse x).data = (cleanCodeResponse x).data)
    (h5 : fixCommonSyntaxErrorsL (cleanCodeResponse x).data = (cleanCodeResponse x).data)
    (h6 : jsTrimL (cleanCodeResponse x).data = (cleanCodeResponse x).data) :
    cleanCodeResponse (cleanCodeResponse x) = cleanCodeResponse x := by
  show String.mk (cleanCodeResponseL (cleanCodeResponse x).data) = cleanCodeResponse x
  rw [cleanCodeResponseL, h1, h2, h3, h4, h5, h6]

/-- Witness for C4: a plain declaration is sanitized to itself, and
sanitizing twice changes nothing. -/
theorem cleanCodeResponse_idempotent_witness :
    cleanCodeResponse (cleanCodeResponse "const a = 1;") = cleanCodeResponse "const a = 1;" :=
  cleanCodeResponse_idempotent_when_stable "const a = 1;" rfl rfl rfl rfl rfl rfl

end ZeroBuild
